import Mathlib

/-!
Verification development for the json-deep-compare library.

The JavaScript sources (Comparator, Options, Result, RegexValidator,
PathUtils, JSONCompare) are shallowly embedded below.  JSON-like trees are
modelled by the inductive `Value`; JavaScript numbers are modelled by `Int`
(all values appearing in the properties under study are integers); the
external regular-expression engine is modelled by an abstract `Matcher`
carrying its `test` function and printed form.  Reference-equality aspects
of JavaScript (container identity, prototype-chain properties) are outside
the modelled tree domain, matching the library's stated scope.
-/

namespace JDC

/-- JSON-like tree values: the data domain of the comparison engine. -/
inductive Value where
  | null : Value
  | bool (b : Bool) : Value
  | num (n : Int) : Value
  | str (s : String) : Value
  | arr (elems : List Value) : Value
  | obj (fields : List (String × Value)) : Value

/-- Custom induction principle giving hypotheses on list members of the
nested constructors. -/
theorem Value.inductionOn {P : Value → Prop}
    (hnull : P .null) (hbool : ∀ b, P (.bool b)) (hnum : ∀ n, P (.num n))
    (hstr : ∀ s, P (.str s))
    (harr : ∀ l, (∀ v ∈ l, P v) → P (.arr l))
    (hobj : ∀ f, (∀ kv ∈ f, P kv.2) → P (.obj f)) : ∀ v, P v := by
  have H : ∀ n v, sizeOf v ≤ n → P v := by
    intro n
    induction n with
    | zero =>
      intro v hv
      cases v <;> simp_all
    | succ n ih =>
      intro v hv
      cases v with
      | null => exact hnull
      | bool b => exact hbool b
      | num m => exact hnum m
      | str s => exact hstr s
      | arr l =>
        refine harr l (fun x hx => ih x ?_)
        have h1 := List.sizeOf_lt_of_mem hx
        simp only [Value.arr.sizeOf_spec] at hv
        omega
      | obj f =>
        refine hobj f (fun kv hkv => ih kv.2 ?_)
        have h1 := List.sizeOf_lt_of_mem hkv
        have h2 : sizeOf kv.2 < sizeOf kv := by
          obtain ⟨a, b⟩ := kv
          simp only [Prod.mk.sizeOf_spec]
          omega
        simp only [Value.obj.sizeOf_spec] at hv
        omega
  exact fun v => H (sizeOf v) v le_rfl

mutual

/-- Structural (strict, `===`-style) equality on tree values. -/
def beqValue : Value → Value → Bool
  | .null, .null => true
  | .bool a, .bool b => a == b
  | .num a, .num b => a == b
  | .str a, .str b => a == b
  | .arr a, .arr b => beqValueList a b
  | .obj a, .obj b => beqFieldList a b
  | _, _ => false

def beqValueList : List Value → List Value → Bool
  | [], [] => true
  | x :: xs, y :: ys => beqValue x y && beqValueList xs ys
  | _, _ => false

def beqFieldList : List (String × Value) → List (String × Value) → Bool
  | [], [] => true
  | (k1, v1) :: xs, (k2, v2) :: ys => k1 == k2 && beqValue v1 v2 && beqFieldList xs ys
  | _, _ => false

end

theorem beqValue_iff : ∀ a b : Value, beqValue a b = true ↔ a = b := by
  intro a
  induction a using Value.inductionOn with
  | hnull => intro b; cases b <;> simp [beqValue]
  | hbool x => intro b; cases b <;> simp [beqValue]
  | hnum x => intro b; cases b <;> simp [beqValue]
  | hstr x => intro b; cases b <;> simp [beqValue]
  | harr l ih =>
    intro b
    cases b with
    | arr m =>
      simp only [beqValue, Value.arr.injEq]
      induction l generalizing m with
      | nil => cases m <;> simp [beqValueList]
      | cons x xs ihl =>
        cases m with
        | nil => simp [beqValueList]
        | cons y ys =>
          have hx := ih x (by simp)
          have hxs : ∀ v ∈ xs, ∀ w, beqValue v w = true ↔ v = w :=
            fun v hv => ih v (by simp [hv])
          simp only [beqValueList, Bool.and_eq_true, hx y, List.cons.injEq]
          constructor
          · rintro ⟨h1, h2⟩
            exact ⟨h1, (ihl hxs ys).mp h2⟩
          · rintro ⟨h1, h2⟩
            exact ⟨h1, (ihl hxs ys).mpr h2⟩
    | null => simp [beqValue]
    | bool y => simp [beqValue]
    | num y => simp [beqValue]
    | str y => simp [beqValue]
    | obj y => simp [beqValue]
  | hobj f ih =>
    intro b
    cases b with
    | obj g =>
      simp only [beqValue, Value.obj.injEq]
      induction f generalizing g with
      | nil => cases g <;> simp [beqFieldList]
      | cons x xs ihl =>
        cases g with
        | nil => obtain ⟨k, v⟩ := x; simp [beqFieldList]
        | cons y ys =>
          obtain ⟨k1, v1⟩ := x
          obtain ⟨k2, v2⟩ := y
          have hx := ih (k1, v1) (by simp)
          have hxs : ∀ kv ∈ xs, ∀ w, beqValue kv.2 w = true ↔ kv.2 = w :=
            fun kv hkv => ih kv (by simp [hkv])
          simp only [beqFieldList, Bool.and_eq_true, beq_iff_eq, List.cons.injEq,
            Prod.mk.injEq]
          constructor
          · rintro ⟨⟨h1, h2⟩, h3⟩
            exact ⟨⟨h1, (hx v2).mp h2⟩, (ihl hxs ys).mp h3⟩
          · rintro ⟨⟨h1, h2⟩, h3⟩
            exact ⟨⟨h1, (hx v2).mpr h2⟩, (ihl hxs ys).mpr h3⟩
    | null => simp [beqValue]
    | bool y => simp [beqValue]
    | num y => simp [beqValue]
    | str y => simp [beqValue]
    | arr y => simp [beqValue]

instance : DecidableEq Value :=
  fun a b => decidable_of_iff (beqValue a b = true) (beqValue_iff a b)

theorem beqValue_refl (v : Value) : beqValue v v = true :=
  (beqValue_iff v v).mpr rfl

/-! ## Number and string conversions (JavaScript semantics, integer domain) -/

/-- Decimal digit character. -/
def digitChar (d : Nat) : Char := Char.ofNat (48 + d)

/-- Digit-count fuelled helper for `natChars` (structural recursion keeps
the definition kernel-computable; the fuel never runs out since each step
divides by ten). -/
def natCharsAux : Nat → Nat → List Char
  | 0, _ => []
  | fuel + 1, n =>
    if n < 10 then [digitChar n]
    else natCharsAux fuel (n / 10) ++ [digitChar (n % 10)]

/-- Decimal representation of a natural number, as the character list of the
JavaScript string conversion. -/
def natChars (n : Nat) : List Char := natCharsAux (n + 1) n

/-- Fuel irrelevance for `natCharsAux`. -/
theorem natCharsAux_fuel {f1 f2 n : Nat} (h1 : n < f1) (h2 : n < f2) :
    natCharsAux f1 n = natCharsAux f2 n := by
  induction f1 using Nat.strong_induction_on generalizing f2 n with
  | _ f1 ih =>
    match f1, f2 with
    | g1 + 1, g2 + 1 =>
      simp only [natCharsAux]
      by_cases hn : n < 10
      · simp [hn]
      · have hd : n / 10 < g1 := by omega
        have hd2 : n / 10 < g2 := by omega
        rw [if_neg hn, if_neg hn, ih g1 (Nat.lt_succ_self g1) hd hd2]

/-- The recursive unfolding of `natChars`. -/
theorem natChars_unfold (n : Nat) :
    natChars n = if n < 10 then [digitChar n] else natChars (n / 10) ++ [digitChar (n % 10)] := by
  by_cases hn : n < 10
  · simp [natChars, natCharsAux, hn]
  · rw [if_neg hn]
    show natCharsAux (n + 1) n = natCharsAux (n / 10 + 1) (n / 10) ++ [digitChar (n % 10)]
    conv_lhs => rw [show natCharsAux (n + 1) n =
      if n < 10 then [digitChar n] else natCharsAux n (n / 10) ++ [digitChar (n % 10)] from rfl]
    rw [if_neg hn]
    congr 1
    exact natCharsAux_fuel (by omega) (by omega)

/-- JavaScript decimal string of a natural number. -/
def natStr (n : Nat) : String := String.mk (natChars n)

/-- JavaScript decimal string of an integer. -/
def intStr (i : Int) : String :=
  if i < 0 then "-" ++ natStr i.natAbs else natStr i.natAbs

/-- Parse a nonempty all-digit character list as a natural number. -/
def parseNatDigits (cs : List Char) : Option Nat :=
  if cs ≠ [] ∧ cs.all Char.isDigit then
    some (cs.foldl (fun a c => a * 10 + (c.toNat - 48)) 0)
  else none

/-- A string is a canonical array index when it is the JavaScript decimal
string of its numeric value (JavaScript array property lookup semantics). -/
def canonicalIndex (s : String) : Option Nat :=
  match parseNatDigits s.data with
  | some n => if natChars n = s.data then some n else none
  | none => none

/-- Whitespace for JavaScript `ToNumber` string trimming. -/
def isJsSpace (c : Char) : Bool := c = ' ' ∨ c = '\t' ∨ c = '\n' ∨ c = '\r'

/-- JavaScript `ToNumber` on strings, restricted to the integer domain:
trimmed empty string is 0, optionally signed digit strings parse, anything
else (including fractional and exponent forms, which are outside the
integer value domain) is treated as not-a-number (`none`). -/
def jsStrToNumber (s : String) : Option Int :=
  let t := ((s.data.dropWhile isJsSpace).reverse.dropWhile isJsSpace).reverse
  match t with
  | [] => some 0
  | '-' :: ds =>
    match parseNatDigits ds with
    | some n => some (-(n : Int))
    | none => none
  | '+' :: ds =>
    match parseNatDigits ds with
    | some n => some (n : Int)
    | none => none
  | ds =>
    match parseNatDigits ds with
    | some n => some (n : Int)
    | none => none

mutual

/-- JavaScript `ToString` of a value (template-literal interpolation):
arrays join their elements with commas (null elements become empty),
plain objects print as `[object Object]`. -/
def jsToString : Value → String
  | .null => "null"
  | .bool b => if b then "true" else "false"
  | .num n => intStr n
  | .str s => s
  | .arr l => jsToStringJoin l
  | .obj _ => "[object Object]"

def jsToStringJoin : List Value → String
  | [] => ""
  | [x] => jsToStringElem x
  | x :: xs => jsToStringElem x ++ "," ++ jsToStringJoin xs

def jsToStringElem : Value → String
  | .null => ""
  | v => jsToString v

end

/-- Two-digit lowercase hex of a byte below 256 (for JSON string escapes). -/
def hexDigit (d : Nat) : Char :=
  if d < 10 then Char.ofNat (48 + d) else Char.ofNat (87 + d)

/-- JSON escape of one character, per `JSON.stringify`. -/
def jsonEscapeChar (c : Char) : List Char :=
  if c = '"' then ['\\', '"']
  else if c = '\\' then ['\\', '\\']
  else if c = '\n' then ['\\', 'n']
  else if c = '\r' then ['\\', 'r']
  else if c = '\t' then ['\\', 't']
  else if c.toNat = 8 then ['\\', 'b']
  else if c.toNat = 12 then ['\\', 'f']
  else if c.toNat < 32 then
    ['\\', 'u', '0', '0', hexDigit (c.toNat / 16), hexDigit (c.toNat % 16)]
  else [c]

/-- JSON quoted string, per `JSON.stringify`. -/
def jsonQuote (s : String) : String :=
  String.mk ('"' :: s.data.flatMap jsonEscapeChar ++ ['"'])

mutual

/-- `JSON.stringify` restricted to the tree value domain. -/
def jsonStringify : Value → String
  | .null => "null"
  | .bool b => if b then "true" else "false"
  | .num n => intStr n
  | .str s => jsonQuote s
  | .arr l => "[" ++ jsonStringifyList l ++ "]"
  | .obj f => "\x7b" ++ jsonStringifyFields f ++ "\x7d"

def jsonStringifyList : List Value → String
  | [] => ""
  | [x] => jsonStringify x
  | x :: xs => jsonStringify x ++ "," ++ jsonStringifyList xs

def jsonStringifyFields : List (String × Value) → String
  | [] => ""
  | [(k, v)] => jsonQuote k ++ ":" ++ jsonStringify v
  | (k, v) :: xs => jsonQuote k ++ ":" ++ jsonStringify v ++ "," ++ jsonStringifyFields xs

end

/-- Is the value a non-null container (`typeof v === 'object'` and not null,
i.e. an array or plain object in the tree domain)? -/
def jsIsContainer : Value → Bool
  | .arr _ => true
  | .obj _ => true
  | _ => false

/-- JavaScript property read `v[k]` restricted to own tree data: field
lookup on objects, canonical-index lookup on arrays.  Properties inherited
from prototypes (such as `length`) are outside the modelled domain. -/
def jsGet (v : Value) (k : String) : Option Value :=
  match v with
  | .obj f => f.lookup k
  | .arr l =>
    match canonicalIndex k with
    | some n => l.get? n
    | none => none
  | _ => none

/-- `k in v` for own tree data. -/
def jsHas (v : Value) (k : String) : Bool := (jsGet v k).isSome

/-- `Object.keys`: field names of objects, index strings of arrays. -/
def jsOwnKeys : Value → List String
  | .obj f => f.map Prod.fst
  | .arr l => (List.range l.length).map natStr
  | _ => []

/-- JavaScript loose (`==`) equality among primitives (numbers, strings,
booleans): string/string compares as strings, otherwise both sides convert
through `ToNumber`. -/
def primToNum : Value → Option Int
  | .num n => some n
  | .bool b => some (if b then 1 else 0)
  | .str s => jsStrToNumber s
  | _ => none

def looseEqPrim (a b : Value) : Bool :=
  match a, b with
  | .str x, .str y => x == y
  | a, b =>
    match primToNum a, primToNum b with
    | some m, some n => m == n
    | _, _ => false

/-- JavaScript loose equality (`==`) on the tree value domain.  Containers
against primitives go through `ToPrimitive` (string conversion); two
containers compare by identity in JavaScript, modelled structurally here
(the engine never reaches this case with distinct structurally-equal
containers). -/
def jsLooseEq (a b : Value) : Bool :=
  match a, b with
  | .null, .null => true
  | .null, _ => false
  | _, .null => false
  | .arr _, .arr _ => beqValue a b
  | .arr _, .obj _ => beqValue a b
  | .obj _, .arr _ => beqValue a b
  | .obj _, .obj _ => beqValue a b
  | .arr l, b => looseEqPrim (.str (jsToString (.arr l))) b
  | .obj f, b => looseEqPrim (.str (jsToString (.obj f))) b
  | a, .arr l => looseEqPrim a (.str (jsToString (.arr l)))
  | a, .obj f => looseEqPrim a (.str (jsToString (.obj f)))
  | a, b => looseEqPrim a b

/-! ## PathUtils (src/PathUtils.js) -/

namespace PathUtils

/-- `PathUtils.buildPath`. -/
def buildPath (path key : String) : String :=
  if path = "" then key else path ++ "." ++ key

/-- `PathUtils.buildArrayPath`. -/
def buildArrayPath (path : String) (index : Nat) : String :=
  path ++ "[" ++ natStr index ++ "]"

mutual

/-- `PathUtils.getAllPaths`: every terminal (leaf or empty-container) path,
appended to the accumulator `paths` in traversal order. -/
def getAllPaths : Value → String → List String → List String
  | .null, currentPath, paths => paths ++ [currentPath]
  | .bool _, currentPath, paths => paths ++ [currentPath]
  | .num _, currentPath, paths => paths ++ [currentPath]
  | .str _, currentPath, paths => paths ++ [currentPath]
  | .arr [], currentPath, paths => paths ++ [currentPath]
  | .arr (x :: xs), currentPath, paths => getAllPathsArr (x :: xs) 0 currentPath paths
  | .obj [], currentPath, paths => paths ++ [currentPath]
  | .obj (f :: fs), currentPath, paths => getAllPathsFields (f :: fs) currentPath paths

def getAllPathsArr : List Value → Nat → String → List String → List String
  | [], _, _, paths => paths
  | x :: xs, i, currentPath, paths =>
    let newPath := if currentPath = "" then "[" ++ natStr i ++ "]"
                   else currentPath ++ "[" ++ natStr i ++ "]"
    getAllPathsArr xs (i + 1) currentPath (getAllPaths x newPath paths)

def getAllPathsFields : List (String × Value) → String → List String → List String
  | [], _, paths => paths
  | (k, v) :: fs, currentPath, paths =>
    let newPath := if currentPath = "" then k else currentPath ++ "." ++ k
    getAllPathsFields fs currentPath (getAllPaths v newPath paths)

end

mutual

/-- The regex replace `path.replace(/\[(\d+)\]/g, '.$1')`: each `[digits]`
group becomes `.digits`; at an unmatched `[` the bracket is kept and
scanning resumes right after it (digits seen before the failure are copied
verbatim, which coincides with rescanning them). -/
def replaceBrackets : List Char → List Char
  | [] => []
  | c :: rest =>
    if c = '[' then replaceBracketsScan rest []
    else c :: replaceBrackets rest
termination_by l => (l.length, 0)
decreasing_by
  · exact Prod.Lex.left _ _ (by simp)
  · exact Prod.Lex.left _ _ (by simp)

/-- Scanner state after an opening `[`: `acc` holds the digits read so far
(reversed). -/
def replaceBracketsScan : List Char → List Char → List Char
  | [], acc => '[' :: acc.reverse
  | c :: rest, acc =>
    if c.isDigit then replaceBracketsScan rest (c :: acc)
    else if c = ']' then
      if acc = [] then '[' :: ']' :: replaceBrackets rest
      else '.' :: acc.reverse ++ replaceBrackets rest
    else '[' :: acc.reverse ++ replaceBrackets (c :: rest)
termination_by l _ => (l.length, 1)
decreasing_by
  · exact Prod.Lex.left _ _ (by simp)
  · exact Prod.Lex.left _ _ (by simp)
  · exact Prod.Lex.left _ _ (by simp)
  · exact Prod.Lex.right _ (by omega)

end

/-- `String.prototype.split('.')`. -/
def splitOnDot : List Char → List (List Char)
  | [] => [[]]
  | '.' :: rest => [] :: splitOnDot rest
  | c :: rest =>
    match splitOnDot rest with
    | h :: t => (c :: h) :: t
    | [] => [[c]]

/-- The parts list used by `getValueAtPath`. -/
def parseParts (path : String) : List String :=
  (splitOnDot (replaceBrackets path.data)).map String.mk

/-- The traversal loop of `getValueAtPath`: `none` is the `undefined`
sentinel. -/
def pathWalk : Option Value → List String → Option Value
  | cur, [] => cur
  | some c, part :: rest =>
    if jsIsContainer c then pathWalk (jsGet c part) rest else none
  | none, _ :: _ => none

/-- `PathUtils.getValueAtPath`. -/
def getValueAtPath (v : Value) (path : String) : Option Value :=
  pathWalk (some v) (parseParts path)

/-- `PathUtils.getKeyNameFromPath`: last dot segment, truncated before the
first `[`. -/
def getKeyNameFromPath (path : String) : String :=
  String.mk (((splitOnDot path.data).getLastD []).takeWhile (fun c => c ≠ '['))

end PathUtils

/-! ## Result accumulator (src/Result.js, per dist/esm/Result.js) -/

/-- Entry of `matched.values`; absent record fields are `none`. -/
structure MatchedValueEntry where
  path : String
  value : Value
  type : Option String := none
  type1 : Option String := none
  type2 : Option String := none
  message : Option String := none
deriving DecidableEq

/-- Entry of `unmatched.keys`. -/
structure UnmatchedKeyEntry where
  path : String
  value : Option Value
  message : String
deriving DecidableEq

/-- Entry of `unmatched.values`; `none` models `undefined`. -/
structure UnmatchedValueEntry where
  path : String
  expected : Option Value := none
  actual : Option Value := none
  expectedType : Option String := none
  actualType : Option String := none
  message : String
deriving DecidableEq

/-- Entry of `unmatched.types`. -/
structure UnmatchedTypeEntry where
  path : String
  expected : String
  actual : String
  message : String
deriving DecidableEq

/-- Entry of `regexChecks.passed`. -/
structure PassedRegexEntry where
  path : String
  value : String
  pattern : String
  matchedByName : Option Bool := none
deriving DecidableEq

/-- Entry of `regexChecks.failed`. -/
structure FailedRegexEntry where
  path : String
  value : String
  pattern : String
  message : String
  matchedByName : Option Bool := none
deriving DecidableEq

/-- The derived summary block. -/
structure Summary where
  matchPercentage : ℚ
  totalKeysCompared : Nat
  totalMatched : Nat
  totalUnmatched : Nat
  totalRegexChecks : Nat
deriving DecidableEq

/-- The options object held by a `Result` instance; `updateSummary` reads
only its `strictTypes` field (`none` models the field being absent, as
when the `Result` is constructed without arguments). -/
structure ResultOptions where
  strictTypes : Option Bool := none
deriving DecidableEq

/-- The full accumulated result state (`this.data` plus `this.options`). -/
structure ResultData where
  ropts : ResultOptions
  matchedKeys : List String
  matchedValues : List MatchedValueEntry
  unmatchedKeys : List UnmatchedKeyEntry
  unmatchedValues : List UnmatchedValueEntry
  unmatchedTypes : List UnmatchedTypeEntry
  regexPassed : List PassedRegexEntry
  regexFailed : List FailedRegexEntry
  summary : Summary
deriving DecidableEq

namespace ResultData

/-- `reset()`: all categories empty, summary zeroed. -/
def reset (ropts : ResultOptions) : ResultData :=
  { ropts := ropts
    matchedKeys := []
    matchedValues := []
    unmatchedKeys := []
    unmatchedValues := []
    unmatchedTypes := []
    regexPassed := []
    regexFailed := []
    summary := { matchPercentage := 0, totalKeysCompared := 0, totalMatched := 0,
                 totalUnmatched := 0, totalRegexChecks := 0 } }

/-- `addMatchedKey`. -/
def addMatchedKey (r : ResultData) (path : String) : ResultData :=
  { r with matchedKeys := r.matchedKeys ++ [path] }

/-- `addMatchedValue`. -/
def addMatchedValue (r : ResultData) (e : MatchedValueEntry) : ResultData :=
  { r with matchedValues := r.matchedValues ++ [e] }

/-- `addUnmatchedKey`. -/
def addUnmatchedKey (r : ResultData) (e : UnmatchedKeyEntry) : ResultData :=
  { r with unmatchedKeys := r.unmatchedKeys ++ [e] }

/-- `addUnmatchedValue`. -/
def addUnmatchedValue (r : ResultData) (e : UnmatchedValueEntry) : ResultData :=
  { r with unmatchedValues := r.unmatchedValues ++ [e] }

/-- `addUnmatchedType`. -/
def addUnmatchedType (r : ResultData) (e : UnmatchedTypeEntry) : ResultData :=
  { r with unmatchedTypes := r.unmatchedTypes ++ [e] }

/-- `addPassedRegexCheck`. -/
def addPassedRegexCheck (r : ResultData) (e : PassedRegexEntry) : ResultData :=
  { r with regexPassed := r.regexPassed ++ [e] }

/-- `addFailedRegexCheck`. -/
def addFailedRegexCheck (r : ResultData) (e : FailedRegexEntry) : ResultData :=
  { r with regexFailed := r.regexFailed ++ [e] }

/-- `updateSummary()`: recomputes the derived summary.  The strictTypes
flag consulted is the one of the `Result`'s own options record, defaulting
to true when absent. -/
def updateSummary (r : ResultData) : ResultData :=
  let totalMatched := r.matchedKeys.length
  let strictTypes := r.ropts.strictTypes.getD true
  let unmatchedTypesCount := if strictTypes then r.unmatchedTypes.length else 0
  let totalUnmatched := r.unmatchedKeys.length + r.unmatchedValues.length + unmatchedTypesCount
  let totalKeysCompared := totalMatched + totalUnmatched
  let totalRegexChecks := r.regexPassed.length + r.regexFailed.length
  { r with summary :=
      { matchPercentage :=
          if totalKeysCompared > 0 then (totalMatched : ℚ) / (totalKeysCompared : ℚ) * 100
          else 100
        totalKeysCompared := totalKeysCompared
        totalMatched := totalMatched
        totalUnmatched := totalUnmatched
        totalRegexChecks := totalRegexChecks } }

end ResultData

/-! ## Options model (src/Options.js) -/

/-- A compiled string matcher: the external regular-expression capability,
carrying its `test` function and its printed (`toString`) form. -/
structure Matcher where
  test : String → Bool
  srcStr : String

/-- A configured pattern before compilation: either a pattern string or an
already-compiled matcher. -/
inductive PatternCfg where
  | strPat (s : String)
  | rePat (m : Matcher)

/-- A per-path array comparison strategy record; absent fields are `none`. -/
structure Strategy where
  type : Option String := none
  keyName : Option Value := none
deriving DecidableEq

/-- The caller-supplied configuration record; `none` models an absent
field. -/
structure RawOptions where
  ignoredKeys : Option (List String) := none
  equivalentValues : Option (List (String × Value)) := none
  regexChecks : Option (List (String × PatternCfg)) := none
  strictTypes : Option Bool := none
  ignoreExtraKeys : Option Bool := none
  matchKeysByName : Option Bool := none
  arrayComparisonStrategies : Option (List (String × Strategy)) := none

/-- The validated options held by the engine after construction. -/
structure OptionsT where
  ignoredKeys : List String
  equivalentValues : List (String × Value)
  regexChecks : List (String × Matcher)
  strictTypes : Bool
  ignoreExtraKeys : Bool
  matchKeysByName : Bool
  arrayComparisonStrategies : List (String × Strategy)

namespace Options

/-- `_compileRegexPatterns`: each string-form pattern is compiled through
the external `compile` capability (`new RegExp`); the first compilation
failure propagates as the construction-time error. -/
def compilePatterns (compile : String → Except String Matcher) :
    List (String × PatternCfg) → Except String (List (String × Matcher))
  | [] => .ok []
  | (k, .strPat s) :: rest => do
    let m ← compile s
    let tail ← compilePatterns compile rest
    .ok ((k, m) :: tail)
  | (k, .rePat m) :: rest => do
    let tail ← compilePatterns compile rest
    .ok ((k, m) :: tail)

/-- The `Options` constructor: defaults for absent fields, then pattern
compilation; a compilation error is a construction-time failure. -/
def build (compile : String → Except String Matcher) (cfg : RawOptions) :
    Except String OptionsT := do
  let compiled ← compilePatterns compile (cfg.regexChecks.getD [])
  .ok { ignoredKeys := cfg.ignoredKeys.getD []
        equivalentValues := cfg.equivalentValues.getD []
        regexChecks := compiled
        strictTypes := cfg.strictTypes.getD true
        ignoreExtraKeys := cfg.ignoreExtraKeys.getD false
        matchKeysByName := cfg.matchKeysByName.getD false
        arrayComparisonStrategies := cfg.arrayComparisonStrategies.getD [] }

end Options

/-! ## RegexValidator (src/RegexValidator.js) -/

namespace RegexValidator

/-- `_checkRegex`: test and record one pass/fail outcome. -/
def checkRegex (value path : String) (regex : Matcher) (r : ResultData) : ResultData :=
  if regex.test value then
    r.addPassedRegexCheck { path := path, value := value, pattern := regex.srcStr }
  else
    r.addFailedRegexCheck { path := path, value := value, pattern := regex.srcStr,
                            message := "Value does not match regex pattern" }

/-- The pattern loop of `validateValue`. -/
def validateValueLoop (opts : OptionsT) (s path : String) :
    List (String × Matcher) → ResultData → ResultData
  | [], r => r
  | (keyPath, regex) :: rest, r =>
    let shouldCheck :=
      keyPath == path ||
        (opts.matchKeysByName && PathUtils.getKeyNameFromPath path == keyPath)
    let r := if shouldCheck then checkRegex s path regex r else r
    validateValueLoop opts s path rest r

/-- `validateValue`: a no-op unless the value is a string. -/
def validateValue (opts : OptionsT) (value : Value) (path : String) (r : ResultData) :
    ResultData :=
  match value with
  | .str s => validateValueLoop opts s path opts.regexChecks r
  | _ => r

/-- `_isPathChecked`. -/
def isPathChecked (r : ResultData) (path : String) : Bool :=
  r.regexPassed.any (fun e => e.path == path) ||
    r.regexFailed.any (fun e => e.path == path)

/-- The inner path loop of `validateAllMatchingKeys`. -/
def vamkPathLoop (o : Value) (regex : Matcher) :
    List String → ResultData → ResultData
  | [], r => r
  | path :: rest, r =>
    let r :=
      match PathUtils.getValueAtPath o path with
      | some (.str value) =>
        if isPathChecked r path then r
        else if regex.test value then
          r.addPassedRegexCheck { path := path, value := value,
                                  pattern := regex.srcStr, matchedByName := some true }
        else
          r.addFailedRegexCheck { path := path, value := value,
                                  pattern := regex.srcStr,
                                  message := "Value does not match regex pattern",
                                  matchedByName := some true }
      | _ => r
    vamkPathLoop o regex rest r

/-- The per-pattern loop of `validateAllMatchingKeys`. -/
def vamkCheckLoop (o : Value) (paths : List String) :
    List (String × Matcher) → ResultData → ResultData
  | [], r => r
  | (keyName, regex) :: rest, r =>
    let matchingPaths := paths.filter (fun p => PathUtils.getKeyNameFromPath p == keyName)
    let r := vamkPathLoop o regex matchingPaths r
    vamkCheckLoop o paths rest r

/-- `validateAllMatchingKeys`: the independent by-key-name scan; a no-op
unless `matchKeysByName` is enabled. -/
def validateAllMatchingKeys (opts : OptionsT) (o : Value) (r : ResultData) : ResultData :=
  if !opts.matchKeysByName then r
  else vamkCheckLoop o (PathUtils.getAllPaths o "" []) opts.regexChecks r

end RegexValidator

/-! ## Comparator (src/Comparator.js) -/

namespace Comparator

/-- `getValueType` on the tree domain (`Date`/`RegExp` instances and other
constructors are outside the modelled domain). -/
def getValueType : Value → String
  | .null => "null"
  | .arr _ => "array"
  | .bool _ => "boolean"
  | .num _ => "number"
  | .str _ => "string"
  | .obj _ => "object"

/-- The `equivalentValues` rule search of `compareValues`: the first group
whose (array) value list contains both values. -/
def equivFind (groups : List (String × Value)) (val1 val2 : Value) : Option String :=
  match groups with
  | [] => none
  | (key, values) :: rest =>
    match values with
    | .arr vs =>
      if vs.contains val1 && vs.contains val2 then some key
      else equivFind rest val1 val2
    | _ => equivFind rest val1 val2

/-- `compareValues`: equivalence groups first, then type tags, then strict
or loose value equality, then regex validation of the second value. -/
def compareValues (opts : OptionsT) (val1 val2 : Value) (path : String)
    (r : ResultData) : ResultData :=
  let type1 := getValueType val1
  let type2 := getValueType val2
  match equivFind opts.equivalentValues val1 val2 with
  | some key =>
    r.addMatchedValue
      { path := path, value := .str (jsToString val1 ++ " ≈ " ++ jsToString val2),
        type1 := some type1, type2 := some type2,
        message := some ("Values considered equivalent by rule \"" ++ key ++ "\"") }
  | none =>
    let r :=
      if type1 ≠ type2 then
        r.addUnmatchedType
          { path := path, expected := type1, actual := type2,
            message := "Types do not match: expected \x27" ++ type1 ++
              "\x27, got \x27" ++ type2 ++ "\x27" }
      else r
    if type1 ≠ type2 ∧ opts.strictTypes then r
    else
      let valuesMatch := if opts.strictTypes then beqValue val1 val2 else jsLooseEq val1 val2
      let r :=
        if valuesMatch then
          r.addMatchedValue { path := path, value := val1, type := some type1 }
        else
          r.addUnmatchedValue
            { path := path, expected := some val1, actual := some val2,
              expectedType := some type1, actualType := some type2,
              message := "Values do not match" }
      RegexValidator.validateValue opts val2 path r

/-! ### Set strategy (`_compareArraysAsSet`) -/

/-- `getElementKey`: containers are keyed by their JSON serialization,
primitives by their raw value. -/
def getElementKey (el : Value) : Value :=
  let t := getValueType el
  if t = "object" ∨ t = "array" then .str (jsonStringify el) else el

/-- `Map.set(key, (map.get(key) || 0) + 1)`: increment in place, or append
a new key with count 1 (JavaScript `Map` preserves insertion order). -/
def mapIncr (m : List (Value × Nat)) (k : Value) : List (Value × Nat) :=
  if m.any (fun p => p.1 == k) then
    m.map (fun p => if p.1 == k then (p.1, p.2 + 1) else p)
  else m ++ [(k, 1)]

/-- The occurrence-count map of an array under `getElementKey`. -/
def buildCountMap (arr : List Value) : List (Value × Nat) :=
  arr.foldl (fun m el => mapIncr m (getElementKey el)) []

/-- `map.get(key) || 0`. -/
def mapCount (m : List (Value × Nat)) (k : Value) : Nat :=
  match m.find? (fun p => p.1 == k) with
  | some p => p.2
  | none => 0

/-- `map.has(key)`. -/
def mapHas (m : List (Value × Nat)) (k : Value) : Bool :=
  m.any (fun p => p.1 == k)

/-- The loop over the first array's count map. -/
def setLoop1 (map2 : List (Value × Nat)) (path : String) :
    List (Value × Nat) → Bool × ResultData → Bool × ResultData
  | [], st => st
  | (key, count1) :: rest, (allMatch, r) =>
    let count2 := mapCount map2 key
    if count1 != count2 then
      let r := r.addUnmatchedValue
        { path := path,
          expected := some (.str ("Element \x27" ++ jsToString key ++ "\x27 count: " ++
            natStr count1)),
          actual := some (.str ("Element \x27" ++ jsToString key ++ "\x27 count: " ++
            natStr count2)),
          message := "Set comparison failed for array at path \x27" ++ path ++
            "\x27: Element \x27" ++ jsToString key ++ "\x27 has count " ++ natStr count1 ++
            " in first array and count " ++ natStr count2 ++ " in second array." }
      setLoop1 map2 path rest (false, r)
    else setLoop1 map2 path rest (allMatch, r)

/-- The loop over the second array's count map (keys absent from the first). -/
def setLoop2 (map1 : List (Value × Nat)) (path : String) :
    List (Value × Nat) → Bool × ResultData → Bool × ResultData
  | [], st => st
  | (key, count2) :: rest, (allMatch, r) =>
    if ¬ mapHas map1 key then
      let r := r.addUnmatchedValue
        { path := path,
          expected := some (.str ("Element \x27" ++ jsToString key ++
            "\x27 count: 0 (not present in first array)")),
          actual := some (.str ("Element \x27" ++ jsToString key ++ "\x27 count: " ++
            natStr count2 ++ " (present in second array)")),
          message := "Set comparison failed for array at path \x27" ++ path ++
            "\x27: Element \x27" ++ jsToString key ++ "\x27 is present in second array (count " ++
            natStr count2 ++ ") but not in first." }
      setLoop2 map1 path rest (false, r)
    else setLoop2 map1 path rest (allMatch, r)

/-- `_compareArraysAsSet`. -/
def compareArraysAsSet (arr1 arr2 : List Value) (path : String) (r : ResultData) :
    ResultData :=
  if arr1.length != arr2.length then
    r.addUnmatchedValue
      { path := path,
        expected := some (.str ("Array of length " ++ natStr arr1.length)),
        actual := some (.str ("Array of length " ++ natStr arr2.length)),
        message := "Array lengths do not match for set comparison" }
  else
    let map1 := buildCountMap arr1
    let map2 := buildCountMap arr2
    let st := setLoop1 map2 path map1 (true, r)
    let st := setLoop2 map1 path map2 st
    let allMatch := st.1
    let r := st.2
    if allMatch && arr1.length == arr2.length then
      r.addMatchedValue
        { path := path,
          value := .str ("Arrays at path \x27" ++ path ++
            "\x27 successfully compared as sets (length " ++ natStr arr1.length ++ ")"),
          type1 := some "array", type2 := some "array",
          message := some ("Arrays at path \x27" ++ path ++
            "\x27 are equivalent when compared as sets.") }
    else r

/-! ### Key strategy helpers (`_compareArraysByKey`) -/

/-- `!keyName || typeof keyName !== 'string'`. -/
def keyNameInvalid : Option Value → Bool
  | some (.str s) => s = ""
  | _ => true

/-- The string of a valid `keyName` (the default is dead code). -/
def keyNameString : Option Value → String
  | some (.str s) => s
  | _ => ""

/-- Template interpolation of a possibly-undefined value. -/
def jsToStringUndef : Option Value → String
  | none => "undefined"
  | some v => jsToString v

/-- `map.has` for the key-to-element maps. -/
def kmapHas (m : List (Value × Value)) (k : Value) : Bool :=
  m.any (fun p => p.1 == k)

/-- `map.set`: replace in place, or append. -/
def kmapSet (m : List (Value × Value)) (k v : Value) : List (Value × Value) :=
  if kmapHas m k then m.map (fun p => if p.1 == k then (p.1, v) else p)
  else m ++ [(k, v)]

/-- `map.get`. -/
def kmapGet (m : List (Value × Value)) (k : Value) : Option Value :=
  (m.find? (fun p => p.1 == k)).map (fun p => p.2)

/-- `Set.add`: insertion-ordered, deduplicating. -/
def setAdd (s : List Value) (k : Value) : List Value :=
  if s.contains k then s else s ++ [k]

/-- The partitioning state of one array under the key strategy. -/
structure KeyScan where
  kmap : List (Value × Value)
  unkeyable : List (Nat × Value)
  dups : List Value

/-- The element loop building the key map, unkeyable list and duplicate-key
set of one array. -/
def keyScanLoop (kn : String) : List Value → Nat → KeyScan → KeyScan
  | [], _, acc => acc
  | el :: rest, i, acc =>
    if ¬ jsIsContainer el then
      keyScanLoop kn rest (i + 1) { acc with unkeyable := acc.unkeyable ++ [(i, el)] }
    else
      match jsGet el kn with
      | none =>
        keyScanLoop kn rest (i + 1) { acc with unkeyable := acc.unkeyable ++ [(i, el)] }
      | some .null =>
        keyScanLoop kn rest (i + 1) { acc with unkeyable := acc.unkeyable ++ [(i, el)] }
      | some kv =>
        let dups := if kmapHas acc.kmap kv then setAdd acc.dups kv else acc.dups
        keyScanLoop kn rest (i + 1)
          { kmap := kmapSet acc.kmap kv el, unkeyable := acc.unkeyable, dups := dups }

/-- Build the key scan of an array. -/
def buildKeyScan (kn : String) (arr : List Value) : KeyScan :=
  keyScanLoop kn arr 0 ⟨[], [], []⟩

/-- Report the unkeyable elements of the first array. -/
def unkeyableReport1 (kn path : String) : List (Nat × Value) → ResultData → ResultData
  | [], r => r
  | (i, el) :: rest, r =>
    unkeyableReport1 kn path rest
      (r.addUnmatchedValue
        { path := PathUtils.buildArrayPath path i,
          expected := some el,
          actual := some (.str ("Unkeyable (key: \x27" ++ kn ++ "\x27)")),
          message := "Element at index " ++ natStr i ++ " in first array at path \x27" ++
            path ++ "\x27 is not an object or is missing the key \x27" ++ kn ++
            "\x27, cannot be used in key-based comparison." })

/-- Report the unkeyable elements of the second array. -/
def unkeyableReport2 (kn path : String) : List (Nat × Value) → ResultData → ResultData
  | [], r => r
  | (i, el) :: rest, r =>
    unkeyableReport2 kn path rest
      (r.addUnmatchedValue
        { path := PathUtils.buildArrayPath path i,
          expected := some (.str ("Unkeyable (key: \x27" ++ kn ++ "\x27)")),
          actual := some el,
          message := "Element at index " ++ natStr i ++ " in second array at path \x27" ++
            path ++ "\x27 is not an object or is missing the key \x27" ++ kn ++
            "\x27, cannot be used in key-based comparison." })

/-- Report the duplicate keys of the first array. -/
def dupReport1 (path : String) : List Value → ResultData → ResultData
  | [], r => r
  | k :: rest, r =>
    dupReport1 path rest
      (r.addUnmatchedValue
        { path := path,
          expected := some (.str ("Key \x27" ++ jsToString k ++ "\x27 to be unique in first array")),
          actual := some (.str ("Key \x27" ++ jsToString k ++ "\x27 is duplicated in first array")),
          message := "Duplicate key \x27" ++ jsToString k ++
            "\x27 found in first array during key-based comparison at path \x27" ++ path ++ "\x27." })

/-- Report the duplicate keys of the second array. -/
def dupReport2 (path : String) : List Value → ResultData → ResultData
  | [], r => r
  | k :: rest, r =>
    dupReport2 path rest
      (r.addUnmatchedValue
        { path := path,
          expected := some (.str ("Key \x27" ++ jsToString k ++ "\x27 to be unique in second array")),
          actual := some (.str ("Key \x27" ++ jsToString k ++ "\x27 is duplicated in second array")),
          message := "Duplicate key \x27" ++ jsToString k ++
            "\x27 found in second array during key-based comparison at path \x27" ++ path ++ "\x27." })

/-! ### Exact strategy helpers (`_compareArraysExact`) -/

/-- The extra-element loop for the first array. -/
def extrasLoop1 : List Value → Nat → String → ResultData → ResultData
  | [], _, _, r => r
  | el :: rest, i, path, r =>
    extrasLoop1 rest (i + 1) path
      (r.addUnmatchedValue
        { path := PathUtils.buildArrayPath path i,
          expected := some el, actual := none,
          message := "Extra element in first array (exact comparison)" })

/-- The extra-element loop for the second array. -/
def extrasLoop2 : List Value → Nat → String → ResultData → ResultData
  | [], _, _, r => r
  | el :: rest, i, path, r =>
    extrasLoop2 rest (i + 1) path
      (r.addUnmatchedValue
        { path := PathUtils.buildArrayPath path i,
          expected := none, actual := some el,
          message := "Extra element in second array (exact comparison)" })

/-- The two extra-element reporting blocks of `_compareArraysExact`. -/
def exactExtras (arr1 arr2 : List Value) (path : String) (r : ResultData) : ResultData :=
  let minLength := min arr1.length arr2.length
  extrasLoop2 (arr2.drop minLength) minLength path
    (extrasLoop1 (arr1.drop minLength) minLength path r)

/-- The extra-keys scan over the second object of `compareObjects`. -/
def extraKeysLoop (opts : OptionsT) (o1 o2 : Value) :
    List String → String → ResultData → ResultData
  | [], _, r => r
  | key :: rest, path, r =>
    let r :=
      if !(opts.ignoredKeys.contains key) && !(jsHas o1 key) then
        r.addUnmatchedKey
          { path := PathUtils.buildPath path key, value := jsGet o2 key,
            message := "Key exists in object 2 but not in object 1" }
      else r
    extraKeysLoop opts o1 o2 rest path r

end Comparator

/-! ### Size lemmas used for the engine's termination measure -/

theorem lookup_sizeOf_lt {f : List (String × Value)} {k : String} {v : Value}
    (h : f.lookup k = some v) : sizeOf v < sizeOf f := by
  induction f with
  | nil => simp [List.lookup] at h
  | cons p rest ih =>
    obtain ⟨k1, v1⟩ := p
    simp only [List.lookup] at h
    cases hk : k == k1
    · rw [hk] at h
      simp only [] at h
      have := ih h
      simp only [List.cons.sizeOf_spec]
      omega
    · rw [hk] at h
      simp only [Option.some.injEq] at h
      subst h
      simp only [List.cons.sizeOf_spec, Prod.mk.sizeOf_spec]
      omega

theorem jsGet_sizeOf {o : Value} {k : String} {v : Value}
    (h : jsGet o k = some v) : sizeOf v < sizeOf o := by
  cases o with
  | obj f =>
    simp only [jsGet] at h
    have := lookup_sizeOf_lt h
    simp only [Value.obj.sizeOf_spec]
    omega
  | arr l =>
    simp only [jsGet] at h
    cases hc : canonicalIndex k with
    | none => rw [hc] at h; simp at h
    | some n =>
      rw [hc] at h
      have hm : v ∈ l := List.get?_mem h
      have := List.sizeOf_lt_of_mem hm
      simp only [Value.arr.sizeOf_spec]
      omega
  | null => simp [jsGet] at h
  | bool b => simp [jsGet] at h
  | num n => simp [jsGet] at h
  | str s => simp [jsGet] at h

theorem jsGet_get_sizeOf {o : Value} {k : String} (h : (jsGet o k).isSome) :
    sizeOf ((jsGet o k).get h) < sizeOf o :=
  jsGet_sizeOf (Option.some_get h).symm

namespace Comparator

theorem kmapSet_mem {m : List (Value × Value)} {k v : Value} {p : Value × Value}
    (h : p ∈ kmapSet m k v) : p.2 = v ∨ p ∈ m := by
  unfold kmapSet at h
  by_cases hk : kmapHas m k
  · rw [if_pos hk] at h
    obtain ⟨q, hq, hpq⟩ := List.mem_map.mp h
    by_cases hq1 : q.1 == k
    · rw [if_pos hq1] at hpq
      left
      rw [← hpq]
    · rw [if_neg hq1] at hpq
      right
      rw [← hpq]
      exact hq
  · rw [if_neg hk] at h
    rcases List.mem_append.mp h with h1 | h1
    · right; exact h1
    · left
      simp at h1
      rw [h1]

theorem keyScanLoop_kmap_mem {kn : String} :
    ∀ (arr : List Value) (i : Nat) (acc : KeyScan),
      ∀ p ∈ (keyScanLoop kn arr i acc).kmap, p.2 ∈ arr ∨ p ∈ acc.kmap := by
  intro arr
  induction arr with
  | nil => intro i acc p hp; right; simpa [keyScanLoop] using hp
  | cons el rest ih =>
    intro i acc p hp
    simp only [keyScanLoop] at hp
    by_cases hc : ¬ jsIsContainer el
    · rw [if_pos hc] at hp
      rcases ih (i + 1) _ p hp with h | h
      · left; exact List.mem_cons_of_mem _ h
      · right; exact h
    · rw [if_neg hc] at hp
      cases hg : jsGet el kn with
      | none =>
        rw [hg] at hp
        rcases ih (i + 1) _ p hp with h | h
        · left; exact List.mem_cons_of_mem _ h
        · right; exact h
      | some kv =>
        cases kv with
        | null =>
          rw [hg] at hp
          rcases ih (i + 1) _ p hp with h | h
          · left; exact List.mem_cons_of_mem _ h
          · right; exact h
        | bool b =>
          rw [hg] at hp
          rcases ih (i + 1) _ p hp with h | h
          · left; exact List.mem_cons_of_mem _ h
          · rcases kmapSet_mem h with h2 | h2
            · left; rw [h2]; exact List.mem_cons_self _ _
            · right; exact h2
        | num n =>
          rw [hg] at hp
          rcases ih (i + 1) _ p hp with h | h
          · left; exact List.mem_cons_of_mem _ h
          · rcases kmapSet_mem h with h2 | h2
            · left; rw [h2]; exact List.mem_cons_self _ _
            · right; exact h2
        | str s =>
          rw [hg] at hp
          rcases ih (i + 1) _ p hp with h | h
          · left; exact List.mem_cons_of_mem _ h
          · rcases kmapSet_mem h with h2 | h2
            · left; rw [h2]; exact List.mem_cons_self _ _
            · right; exact h2
        | arr l =>
          rw [hg] at hp
          rcases ih (i + 1) _ p hp with h | h
          · left; exact List.mem_cons_of_mem _ h
          · rcases kmapSet_mem h with h2 | h2
            · left; rw [h2]; exact List.mem_cons_self _ _
            · right; exact h2
        | obj f =>
          rw [hg] at hp
          rcases ih (i + 1) _ p hp with h | h
          · left; exact List.mem_cons_of_mem _ h
          · rcases kmapSet_mem h with h2 | h2
            · left; rw [h2]; exact List.mem_cons_self _ _
            · right; exact h2

theorem buildKeyScan_kmap_sizeOf {kn : String} {arr : List Value} {p : Value × Value}
    (hp : p ∈ (buildKeyScan kn arr).kmap) : sizeOf p.2 < 1 + sizeOf arr := by
  rcases keyScanLoop_kmap_mem arr 0 ⟨[], [], []⟩ p hp with h | h
  · have := List.sizeOf_lt_of_mem h
    have hp2 : sizeOf p.2 < sizeOf p := by
      obtain ⟨a, b⟩ := p
      simp only [Prod.mk.sizeOf_spec]
      omega
    omega
  · simp at h

theorem kmapGet_get_sizeOf {m : List (Value × Value)} {k : Value} {b : Nat}
    (hb : ∀ p ∈ m, sizeOf p.2 < b) (h : (kmapGet m k).isSome) :
    sizeOf ((kmapGet m k).get h) < b := by
  have H : ∀ v, kmapGet m k = some v → sizeOf v < b := by
    intro v hv
    unfold kmapGet at hv
    cases hf : m.find? (fun p => p.1 == k) with
    | none => rw [hf] at hv; simp at hv
    | some p =>
      rw [hf] at hv
      simp only [Option.map_some', Option.some.injEq] at hv
      subst hv
      exact hb p (List.mem_of_find?_eq_some hf)
  exact H _ (Option.some_get h).symm

end Comparator

/-- `Array.isArray`. -/
def Value.isArray : Value → Bool
  | .arr _ => true
  | _ => false

/-- The element list of an array value (empty on non-arrays). -/
def Value.arrElems : Value → List Value
  | .arr l => l
  | _ => []

theorem Value.isArray_sizeOf {v : Value} (h : v.isArray = true) :
    sizeOf v = 1 + sizeOf v.arrElems := by
  cases v <;> simp_all [Value.isArray, Value.arrElems]

/-- Lexicographic helper for the engine's termination proofs. -/
theorem lex3 {a1 b1 c1 a2 b2 c2 : Nat}
    (h : a1 < a2 ∨ (a1 = a2 ∧ (b1 < b2 ∨ (b1 = b2 ∧ c1 < c2)))) :
    Prod.Lex (· < ·) (Prod.Lex (· < ·) (· < ·))
      (a1, b1, c1) (a2, b2, c2) := by
  rcases h with h | ⟨rfl, h | ⟨rfl, h⟩⟩
  · exact Prod.Lex.left _ _ h
  · exact Prod.Lex.right _ (Prod.Lex.left _ _ h)
  · exact Prod.Lex.right _ (Prod.Lex.right _ h)

namespace Comparator

/-! ### The recursive engine -/

mutual

/-- `compareObjects`: dispatch on value shape, then lockstep key walk. -/
def compareObjects (opts : OptionsT) (o1 o2 : Value) (path : String) (r : ResultData) :
    ResultData :=
  if o1 = .null ∨ o2 = .null then compareValues opts o1 o2 path r
  else if ha : o1.isArray && o2.isArray then
    compareArrays opts o1.arrElems o2.arrElems path r
  else if ¬ jsIsContainer o1 ∨ ¬ jsIsContainer o2 then compareValues opts o1 o2 path r
  else
    let keys1 := (jsOwnKeys o1).filter (fun k => !(opts.ignoredKeys.contains k))
    let r := compareKeysLoop opts o1 o2 keys1 path r
    if opts.ignoreExtraKeys then r
    else extraKeysLoop opts o1 o2 (jsOwnKeys o2) path r
termination_by (sizeOf o1 + sizeOf o2, 5, 0)
decreasing_by
  all_goals refine lex3 (Or.inr ⟨?_, Or.inl (by omega)⟩)
  all_goals first
    | rfl
    | (cases o1 <;> cases o2 <;> simp_all [Value.isArray, Value.arrElems])

/-- The per-key loop of `compareObjects` over the first object's
non-ignored keys. -/
def compareKeysLoop (opts : OptionsT) (o1 o2 : Value) (keys : List String)
    (path : String) (r : ResultData) : ResultData :=
  match keys with
  | [] => r
  | key :: rest =>
    let newPath := PathUtils.buildPath path key
    let r :=
      if h2 : (jsGet o2 key).isSome then
        let r := r.addMatchedKey newPath
        -- `obj1[key]` is always present for a key of `keys1`; the dead
        -- `else` branch keeps the lookup total.
        if h1 : (jsGet o1 key).isSome then
          let v1 := (jsGet o1 key).get h1
          let v2 := (jsGet o2 key).get h2
          if jsIsContainer v1 && jsIsContainer v2 then compareObjects opts v1 v2 newPath r
          else compareValues opts v1 v2 newPath r
        else r
      else
        r.addUnmatchedKey
          { path := newPath, value := jsGet o1 key,
            message := "Key exists in object 1 but not in object 2" }
    compareKeysLoop opts o1 o2 rest path r
termination_by (sizeOf o1 + sizeOf o2, 4, keys.length)
decreasing_by
  · have g1 := jsGet_get_sizeOf h1
    have g2 := jsGet_get_sizeOf h2
    exact lex3 (Or.inl (by omega))
  · exact lex3 (Or.inr ⟨rfl, Or.inr ⟨rfl, by simp⟩⟩)

/-- `compareArrays`: strategy dispatch, defaulting to exact. -/
def compareArrays (opts : OptionsT) (arr1 arr2 : List Value) (path : String)
    (r : ResultData) : ResultData :=
  let strategy := (opts.arrayComparisonStrategies.lookup path).getD { type := some "exact" }
  if strategy.type == some "set" then compareArraysAsSet arr1 arr2 path r
  else if strategy.type == some "key" then compareArraysByKey opts arr1 arr2 path strategy r
  else compareArraysExact opts arr1 arr2 path r
termination_by (1 + sizeOf arr1 + (1 + sizeOf arr2), 4, 0)
decreasing_by
  · exact lex3 (Or.inr ⟨rfl, Or.inl (by omega)⟩)
  · exact lex3 (Or.inr ⟨rfl, Or.inl (by omega)⟩)

/-- `_compareArraysByKey`. -/
def compareArraysByKey (opts : OptionsT) (arr1 arr2 : List Value) (path : String)
    (strategy : Strategy) (r : ResultData) : ResultData :=
  let keyName := strategy.keyName
  if keyNameInvalid keyName then
    let r := r.addUnmatchedValue
      { path := path,
        message := "Invalid keyName \x27" ++ jsToStringUndef keyName ++
          "\x27 for array key comparison. Falling back to exact comparison.",
        expected := some (.str "Valid keyName string"),
        actual := keyName }
    compareArraysExact opts arr1 arr2 path r
  else
    let kn := keyNameString keyName
    let scan1 := buildKeyScan kn arr1
    let scan2 := buildKeyScan kn arr2
    let r := unkeyableReport1 kn path scan1.unkeyable r
    let r := unkeyableReport2 kn path scan2.unkeyable r
    let r := dupReport1 path scan1.dups r
    let r := dupReport2 path scan2.dups r
    let comparisonSuccessful := scan1.unkeyable.isEmpty && scan2.unkeyable.isEmpty &&
      scan1.dups.isEmpty && scan2.dups.isEmpty
    let allKeys := (scan1.kmap.map Prod.fst ++ scan2.kmap.map Prod.fst).foldl setAdd []
    -- The size bounds passed to the keyed loop justify termination of the
    -- recursive object comparisons on the map elements.
    let st := keyedLoop opts kn path scan1.kmap scan2.kmap arr1 arr2
      (fun p hp => buildKeyScan_kmap_sizeOf hp)
      (fun p hp => buildKeyScan_kmap_sizeOf hp)
      allKeys (comparisonSuccessful, 0, r)
    let comparisonSuccessful := st.1
    let itemsMatched := st.2.1
    let r := st.2.2
    let keyableLength1 := arr1.length - scan1.unkeyable.length
    let keyableLength2 := arr2.length - scan2.unkeyable.length
    let st2 :=
      if keyableLength1 != keyableLength2 && comparisonSuccessful then
        (false,
          r.addUnmatchedValue
            { path := path,
              expected := some (.str ("Array of " ++ natStr keyableLength1 ++
                " keyable items (using key \x27" ++ kn ++ "\x27)")),
              actual := some (.str ("Array of " ++ natStr keyableLength2 ++
                " keyable items (using key \x27" ++ kn ++ "\x27)")),
              message := "Effective array lengths (after filtering unkeyable items) do not match at path \x27" ++
                path ++ "\x27 for key-based comparison." })
      else (comparisonSuccessful, r)
    let comparisonSuccessful := st2.1
    let r := st2.2
    if comparisonSuccessful && itemsMatched == allKeys.length &&
        keyableLength1 == keyableLength2 then
      r.addMatchedValue
        { path := path,
          value := .str ("Arrays at path \x27" ++ path ++
            "\x27 successfully compared by key \x27" ++ kn ++ "\x27 (items: " ++
            natStr itemsMatched ++ ")"),
          type1 := some "array", type2 := some "array",
          message := some ("Arrays at path \x27" ++ path ++
            "\x27 are equivalent when compared by key \x27" ++ kn ++ "\x27.") }
    else r
termination_by (1 + sizeOf arr1 + (1 + sizeOf arr2), 3, 0)
decreasing_by
  · exact lex3 (Or.inr ⟨rfl, Or.inl (by omega)⟩)
  · exact lex3 (Or.inr ⟨rfl, Or.inl (by omega)⟩)

/-- The loop of `_compareArraysByKey` over the union of key values.  The
state is (comparisonSuccessful, itemsMatched, result); `b1`/`b2` bound the
sizes of the map elements (termination bookkeeping only). -/
def keyedLoop (opts : OptionsT) (kn path : String) (map1 map2 : List (Value × Value))
    (arr1 arr2 : List Value) (hm1 : ∀ p ∈ map1, sizeOf p.2 < 1 + sizeOf arr1)
    (hm2 : ∀ p ∈ map2, sizeOf p.2 < 1 + sizeOf arr2)
    (keys : List Value) (st : Bool × Nat × ResultData) : Bool × Nat × ResultData :=
  match keys with
  | [] => st
  | key :: rest =>
    let cs := st.1
    let itemsMatched := st.2.1
    let r := st.2.2
    let keyedPath := PathUtils.buildPath path ("[" ++ kn ++ "=" ++ jsToString key ++ "]")
    let st :=
      if h1 : (kmapGet map1 key).isSome then
        if h2 : (kmapGet map2 key).isSome then
          let el1 := (kmapGet map1 key).get h1
          let el2 := (kmapGet map2 key).get h2
          let r := compareObjects opts el1 el2 keyedPath r
          (cs, itemsMatched + 1, r)
        else
          (false, itemsMatched,
            r.addUnmatchedValue
              { path := keyedPath,
                expected := kmapGet map1 key, actual := none,
                message := "Element with key \x27" ++ jsToString key ++
                  "\x27 exists in first array at path \x27" ++ path ++
                  "\x27 but not in second (key-based comparison)." })
      else
        (false, itemsMatched,
          r.addUnmatchedValue
            { path := keyedPath,
              expected := none, actual := kmapGet map2 key,
              message := "Element with key \x27" ++ jsToString key ++
                "\x27 exists in second array at path \x27" ++ path ++
                "\x27 but not in first (key-based comparison)." })
    keyedLoop opts kn path map1 map2 arr1 arr2 hm1 hm2 rest st
termination_by (1 + sizeOf arr1 + (1 + sizeOf arr2), 2, keys.length)
decreasing_by
  · have g1 := kmapGet_get_sizeOf hm1 h1
    have g2 := kmapGet_get_sizeOf hm2 h2
    exact lex3 (Or.inl (by omega))
  · exact lex3 (Or.inr ⟨rfl, Or.inr ⟨rfl, by simp⟩⟩)

/-- `_compareArraysExact`. -/
def compareArraysExact (opts : OptionsT) (arr1 arr2 : List Value) (path : String)
    (r : ResultData) : ResultData :=
  let r :=
    if arr1.length != arr2.length then
      r.addUnmatchedValue
        { path := path,
          expected := some (.str ("Array of length " ++ natStr arr1.length)),
          actual := some (.str ("Array of length " ++ natStr arr2.length)),
          message := "Array lengths do not match (exact comparison)" }
    else r
  let r := exactPairLoop opts arr1 arr2 0 path r
  exactExtras arr1 arr2 path r
termination_by (1 + sizeOf arr1 + (1 + sizeOf arr2), 1, 0)
decreasing_by
  · exact lex3 (Or.inl (by omega))

/-- The pairwise element loop of `_compareArraysExact` over indices up to
the shorter length. -/
def exactPairLoop (opts : OptionsT) (l1 l2 : List Value) (i : Nat) (path : String)
    (r : ResultData) : ResultData :=
  match l1, l2 with
  | x :: xs, y :: ys =>
    let newPath := PathUtils.buildArrayPath path i
    let r :=
      if jsIsContainer x && jsIsContainer y then compareObjects opts x y newPath r
      else compareValues opts x y newPath r
    exactPairLoop opts xs ys (i + 1) path r
  | _, _ => r
termination_by (sizeOf l1 + sizeOf l2, 0, 0)
decreasing_by
  all_goals exact lex3 (Or.inl (by simp only [List.cons.sizeOf_spec]; omega))

end

end Comparator

/-! ## JSONCompare public API (src/JSONCompare.js) -/

namespace JSONCompare

/-- The fresh `Result` of a `JSONCompare` instance: constructed with no
arguments, so its options record is empty. -/
def freshResult : ResultData := ResultData.reset { strictTypes := none }

/-- `compare(obj1, obj2)`: reset, full traversal from the root, summary. -/
def compare (opts : OptionsT) (o1 o2 : Value) : ResultData :=
  (Comparator.compareObjects opts o1 o2 "" freshResult).updateSummary

/-- `compareAndValidate(obj1, obj2)`: `compare`, then the by-key-name scan
over the second object, then a summary refresh. -/
def compareAndValidate (opts : OptionsT) (o1 o2 : Value) : ResultData :=
  (RegexValidator.validateAllMatchingKeys opts o2 (compare opts o1 o2)).updateSummary

/-- Modelled from the spec: the implementation of `validate(value)` is
absent from the sources (only its type declaration and callers appear);
§6 specifies it as comparing `value` against an empty container and then
running the by-key-name scan. -/
def validate (opts : OptionsT) (v : Value) : ResultData :=
  (RegexValidator.validateAllMatchingKeys opts v (compare opts v (.obj []))).updateSummary

/-- Modelled from the spec: the implementation of `getOptions()` is absent
from the sources (only its type declaration and callers appear); §6
specifies it as a read-only view of the options. -/
def getOptions (opts : OptionsT) : OptionsT := opts

end JSONCompare

/-- The documented option defaults (all configuration fields absent). -/
def defaultOptions : OptionsT :=
  { ignoredKeys := [], equivalentValues := [], regexChecks := [], strictTypes := true,
    ignoreExtraKeys := false, matchKeysByName := false, arrayComparisonStrategies := [] }

theorem defaultOptions_eq_build :
    Options.build (fun s => .ok { test := fun _ => false, srcStr := s }) {} =
      .ok defaultOptions := rfl

/-! ## Claims -/

/-- C1: the public API additionally provides `validate(value)` — a Result
equivalent to comparing `value` against an empty container and then running
the by-key-name pattern scan — and `getOptions()`, a read-only view of the
options; for every instance both behave as stated.  (`validate` and
`getOptions` are spec-modelled: their implementation is absent from the
sources.) -/
theorem c1_validate_and_getOptions (opts : OptionsT) (v : Value) :
    JSONCompare.validate opts v =
      (RegexValidator.validateAllMatchingKeys opts v
        ((Comparator.compareObjects opts v (.obj []) "" JSONCompare.freshResult).updateSummary)).updateSummary ∧
    JSONCompare.getOptions opts = opts :=
  ⟨rfl, rfl⟩

/-- C2 (code bug): with `strictTypes := false`, comparing `{a: 1}` against
`{a: "1"}` records one unmatched-type entry and no other unmatched entry,
yet `totalUnmatched` is 1, not 0: the `Result` is constructed without
options, so `updateSummary` sees no `strictTypes` field and defaults it to
true, counting the type entry even though the instance was constructed
with `strictTypes = false`. -/
theorem c2_type_entries_always_counted :
    (JSONCompare.compare { defaultOptions with strictTypes := false }
        (.obj [("a", .num 1)]) (.obj [("a", .str "1")])).unmatchedTypes.length = 1 ∧
    (JSONCompare.compare { defaultOptions with strictTypes := false }
        (.obj [("a", .num 1)]) (.obj [("a", .str "1")])).unmatchedKeys = [] ∧
    (JSONCompare.compare { defaultOptions with strictTypes := false }
        (.obj [("a", .num 1)]) (.obj [("a", .str "1")])).unmatchedValues = [] ∧
    (JSONCompare.compare { defaultOptions with strictTypes := false }
        (.obj [("a", .num 1)]) (.obj [("a", .str "1")])).summary.totalUnmatched = 1 := by
  refine ⟨?_, ?_, ?_, ?_⟩ <;>
    simp [JSONCompare.compare, JSONCompare.freshResult, ResultData.reset,
      Comparator.compareObjects, Comparator.compareKeysLoop, Comparator.extraKeysLoop,
      Comparator.compareValues, Comparator.equivFind, Comparator.getValueType,
      RegexValidator.validateValue, RegexValidator.validateValueLoop,
      jsGet, jsHas, jsOwnKeys, jsIsContainer, Value.isArray, Value.arrElems,
      PathUtils.buildPath, ResultData.addMatchedKey, ResultData.addMatchedValue,
      ResultData.addUnmatchedKey, ResultData.addUnmatchedValue, ResultData.addUnmatchedType,
      ResultData.updateSummary, defaultOptions, beqValue, jsLooseEq, looseEqPrim,
      primToNum, jsStrToNumber, parseNatDigits, isJsSpace, List.lookup]

/-- C3 counterexample: with default options,
`compare({a:1,b:2}, {a:1,b:3})` does not have `matchPercentage = 50`: both
keys are matched keys, so the summary is 2 matched / 3 compared. -/
theorem c3_matchPercentage_not_fifty :
    (JSONCompare.compare defaultOptions (.obj [("a", .num 1), ("b", .num 2)])
        (.obj [("a", .num 1), ("b", .num 3)])).summary.matchPercentage ≠ 50 := by
  have h : (JSONCompare.compare defaultOptions (.obj [("a", .num 1), ("b", .num 2)])
      (.obj [("a", .num 1), ("b", .num 3)])).summary.matchPercentage = 200 / 3 := by
    simp [JSONCompare.compare, JSONCompare.freshResult, ResultData.reset,
      Comparator.compareObjects, Comparator.compareKeysLoop, Comparator.extraKeysLoop,
      Comparator.compareValues, Comparator.equivFind, Comparator.getValueType,
      RegexValidator.validateValue, RegexValidator.validateValueLoop,
      jsGet, jsHas, jsOwnKeys, jsIsContainer, Value.isArray, Value.arrElems,
      PathUtils.buildPath, ResultData.addMatchedKey, ResultData.addMatchedValue,
      ResultData.addUnmatchedKey, ResultData.addUnmatchedValue, ResultData.addUnmatchedType,
      ResultData.updateSummary, defaultOptions, beqValue, List.lookup]
    norm_num
  rw [h]
  norm_num

/-- C3 as amended: with default options, `compare({a:1,b:2}, {a:1,b:3})`
yields `matched.keys = ['a','b']`, exactly the matched-value entry for path
`a` with value 1, exactly the unmatched-value entry for path `b` with
expected 2 and actual 3, and `summary.matchPercentage = 200/3` (the float
66.66…, not 50). -/
theorem c3_concrete_scenario :
    (JSONCompare.compare defaultOptions (.obj [("a", .num 1), ("b", .num 2)])
        (.obj [("a", .num 1), ("b", .num 3)])).matchedKeys = ["a", "b"] ∧
    (JSONCompare.compare defaultOptions (.obj [("a", .num 1), ("b", .num 2)])
        (.obj [("a", .num 1), ("b", .num 3)])).matchedValues =
      [{ path := "a", value := .num 1, type := some "number" }] ∧
    (JSONCompare.compare defaultOptions (.obj [("a", .num 1), ("b", .num 2)])
        (.obj [("a", .num 1), ("b", .num 3)])).unmatchedValues =
      [{ path := "b", expected := some (.num 2), actual := some (.num 3),
         expectedType := some "number", actualType := some "number",
         message := "Values do not match" }] ∧
    (JSONCompare.compare defaultOptions (.obj [("a", .num 1), ("b", .num 2)])
        (.obj [("a", .num 1), ("b", .num 3)])).summary.matchPercentage = 200 / 3 := by
  refine ⟨?_, ?_, ?_, ?_⟩ <;>
    simp [JSONCompare.compare, JSONCompare.freshResult, ResultData.reset,
      Comparator.compareObjects, Comparator.compareKeysLoop, Comparator.extraKeysLoop,
      Comparator.compareValues, Comparator.equivFind, Comparator.getValueType,
      RegexValidator.validateValue, RegexValidator.validateValueLoop,
      jsGet, jsHas, jsOwnKeys, jsIsContainer, Value.isArray, Value.arrElems,
      PathUtils.buildPath, ResultData.addMatchedKey, ResultData.addMatchedValue,
      ResultData.addUnmatchedKey, ResultData.addUnmatchedValue, ResultData.addUnmatchedType,
      ResultData.updateSummary, defaultOptions, beqValue, List.lookup]
  norm_num

/-- C6: under a `key` strategy whose keyName is missing or not a string,
the engine records one structural unmatched-value entry at the array's own
path and then compares the arrays under the exact strategy; the run
completes and returns a result. -/
theorem c6_invalid_keyName_falls_back_to_exact
    (opts : OptionsT) (arr1 arr2 : List Value) (path : String) (strategy : Strategy)
    (r : ResultData) (h : Comparator.keyNameInvalid strategy.keyName = true) :
    Comparator.compareArraysByKey opts arr1 arr2 path strategy r =
      Comparator.compareArraysExact opts arr1 arr2 path
        (r.addUnmatchedValue
          { path := path,
            expected := some (.str "Valid keyName string"),
            actual := strategy.keyName,
            message := "Invalid keyName \x27" ++ Comparator.jsToStringUndef strategy.keyName ++
              "\x27 for array key comparison. Falling back to exact comparison." }) := by
  rw [Comparator.compareArraysByKey]
  rw [if_pos h]

/-- C6 witness: a concrete `key` strategy without `keyName` on `[1]`
versus `[2]` records the structural entry and proceeds exactly. -/
theorem c6_witness :
    Comparator.compareArraysByKey defaultOptions [.num 1] [.num 2] "a"
        { type := some "key" } JSONCompare.freshResult =
      Comparator.compareArraysExact defaultOptions [.num 1] [.num 2] "a"
        (JSONCompare.freshResult.addUnmatchedValue
          { path := "a",
            expected := some (.str "Valid keyName string"),
            actual := none,
            message := "Invalid keyName \x27undefined\x27 for array key comparison. Falling back to exact comparison." }) :=
  c6_invalid_keyName_falls_back_to_exact defaultOptions [.num 1] [.num 2] "a"
    { type := some "key" } JSONCompare.freshResult rfl

/-- Concrete JSON serialization used by the C10 scenario. -/
theorem jsonStringify_obj_a1 :
    jsonStringify (.obj [("a", .num 1)]) = "\x7b\"a\":1\x7d" := rfl

/-- C10: under the set strategy, a container element is keyed by its JSON
serialization while a primitive is keyed by its raw value, so the string
`'{"a":1}'` and the object `{a:1}` share a multiset key, and the two
singleton arrays compare as successfully set-equivalent: one matched-value
entry, no unmatched entries, 100% match. -/
theorem c10_stringify_key_collision :
    Comparator.getElementKey (.obj [("a", .num 1)]) = .str "\x7b\"a\":1\x7d" ∧
    Comparator.getElementKey (.str "\x7b\"a\":1\x7d") = .str "\x7b\"a\":1\x7d" ∧
    (JSONCompare.compare
        { defaultOptions with arrayComparisonStrategies := [("a", { type := some "set" })] }
        (.obj [("a", .arr [.str "\x7b\"a\":1\x7d"])])
        (.obj [("a", .arr [.obj [("a", .num 1)]])])).unmatchedValues = [] ∧
    (JSONCompare.compare
        { defaultOptions with arrayComparisonStrategies := [("a", { type := some "set" })] }
        (.obj [("a", .arr [.str "\x7b\"a\":1\x7d"])])
        (.obj [("a", .arr [.obj [("a", .num 1)]])])).unmatchedKeys = [] ∧
    (JSONCompare.compare
        { defaultOptions with arrayComparisonStrategies := [("a", { type := some "set" })] }
        (.obj [("a", .arr [.str "\x7b\"a\":1\x7d"])])
        (.obj [("a", .arr [.obj [("a", .num 1)]])])).unmatchedTypes = [] ∧
    (JSONCompare.compare
        { defaultOptions with arrayComparisonStrategies := [("a", { type := some "set" })] }
        (.obj [("a", .arr [.str "\x7b\"a\":1\x7d"])])
        (.obj [("a", .arr [.obj [("a", .num 1)]])])).matchedValues.length = 1 ∧
    (JSONCompare.compare
        { defaultOptions with arrayComparisonStrategies := [("a", { type := some "set" })] }
        (.obj [("a", .arr [.str "\x7b\"a\":1\x7d"])])
        (.obj [("a", .arr [.obj [("a", .num 1)]])])).summary.matchPercentage = 100 := by
  refine ⟨rfl, rfl, ?_, ?_, ?_, ?_, ?_⟩ <;>
    simp [JSONCompare.compare, JSONCompare.freshResult, ResultData.reset,
      Comparator.compareObjects, Comparator.compareKeysLoop, Comparator.extraKeysLoop,
      Comparator.compareArrays, Comparator.compareArraysAsSet, Comparator.setLoop1,
      Comparator.setLoop2, Comparator.buildCountMap, Comparator.mapIncr,
      Comparator.mapCount, Comparator.mapHas, Comparator.getElementKey,
      Comparator.compareValues, Comparator.equivFind, Comparator.getValueType,
      RegexValidator.validateValue, RegexValidator.validateValueLoop,
      jsGet, jsHas, jsOwnKeys, jsIsContainer, Value.isArray, Value.arrElems,
      PathUtils.buildPath, ResultData.addMatchedKey, ResultData.addMatchedValue,
      ResultData.addUnmatchedKey, ResultData.addUnmatchedValue, ResultData.addUnmatchedType,
      ResultData.updateSummary, defaultOptions, beqValue, List.lookup,
      jsonStringify_obj_a1]

/-! ### C5 (pattern compilation at construction) -/

/-- The entrywise compilation relation: keys kept, string patterns
compiled through the external capability, compiled patterns kept as-is. -/
def CompiledFrom (compile : String → Except String Matcher)
    (kp : String × PatternCfg) (km : String × Matcher) : Prop :=
  kp.1 = km.1 ∧
    match kp.2 with
    | .strPat s => compile s = .ok km.2
    | .rePat m => km.2 = m

theorem compilePatterns_ok (compile : String → Except String Matcher)
    (l : List (String × PatternCfg))
    (h : ∀ k s, (k, PatternCfg.strPat s) ∈ l → ∃ m, compile s = .ok m) :
    ∃ ms, Options.compilePatterns compile l = .ok ms ∧
      List.Forall₂ (CompiledFrom compile) l ms := by
  induction l with
  | nil => exact ⟨[], rfl, List.Forall₂.nil⟩
  | cons p rest ih =>
    obtain ⟨k, pc⟩ := p
    have htail : ∀ k s, (k, PatternCfg.strPat s) ∈ rest → ∃ m, compile s = .ok m :=
      fun k s hm => h k s (List.mem_cons_of_mem _ hm)
    obtain ⟨ms, hms, hfa⟩ := ih htail
    cases pc with
    | strPat s =>
      obtain ⟨m, hm⟩ := h k s (List.mem_cons_self _ _)
      refine ⟨(k, m) :: ms, ?_, List.Forall₂.cons ⟨rfl, hm⟩ hfa⟩
      simp [Options.compilePatterns, hm, hms, bind, Except.bind]
    | rePat m =>
      refine ⟨(k, m) :: ms, ?_, List.Forall₂.cons ⟨rfl, rfl⟩ hfa⟩
      simp [Options.compilePatterns, hms, bind, Except.bind]

theorem compilePatterns_error (compile : String → Except String Matcher)
    (l : List (String × PatternCfg)) {k s e}
    (hm : (k, PatternCfg.strPat s) ∈ l) (he : compile s = .error e) :
    ∃ e2, Options.compilePatterns compile l = .error e2 := by
  induction l with
  | nil => simp at hm
  | cons p rest ih =>
    obtain ⟨k1, pc⟩ := p
    rcases List.mem_cons.mp hm with hhead | htail
    · obtain ⟨hk, hpc⟩ := Prod.mk.injEq .. ▸ hhead
      subst hpc
      exact ⟨e, by simp [Options.compilePatterns, he, bind, Except.bind]⟩
    · cases pc with
      | strPat s1 =>
        cases hc : compile s1 with
        | error e1 => exact ⟨e1, by simp [Options.compilePatterns, hc, bind, Except.bind]⟩
        | ok m =>
          obtain ⟨e2, he2⟩ := ih htail
          exact ⟨e2, by simp [Options.compilePatterns, hc, he2, bind, Except.bind]⟩
      | rePat m =>
        obtain ⟨e2, he2⟩ := ih htail
        exact ⟨e2, by simp [Options.compilePatterns, he2, bind, Except.bind]⟩

/-- C5: constructing an instance whose `regexChecks` contains a malformed
pattern string (one the external `new RegExp` rejects) fails at
construction time with that error, while construction from only
well-formed pattern strings succeeds and compiles each string into a
matcher, keeping already-compiled patterns. -/
theorem c5_construction_compiles_patterns (compile : String → Except String Matcher)
    (cfg : RawOptions) :
    ((∀ k s, (k, PatternCfg.strPat s) ∈ cfg.regexChecks.getD [] → ∃ m, compile s = .ok m) →
      ∃ o, Options.build compile cfg = .ok o ∧
        List.Forall₂ (CompiledFrom compile) (cfg.regexChecks.getD []) o.regexChecks) ∧
    ((∃ k s e, (k, PatternCfg.strPat s) ∈ cfg.regexChecks.getD [] ∧ compile s = .error e) →
      ∃ e, Options.build compile cfg = .error e) := by
  constructor
  · intro h
    obtain ⟨ms, hms, hfa⟩ := compilePatterns_ok compile _ h
    refine ⟨{ ignoredKeys := cfg.ignoredKeys.getD [],
              equivalentValues := cfg.equivalentValues.getD [],
              regexChecks := ms,
              strictTypes := cfg.strictTypes.getD true,
              ignoreExtraKeys := cfg.ignoreExtraKeys.getD false,
              matchKeysByName := cfg.matchKeysByName.getD false,
              arrayComparisonStrategies := cfg.arrayComparisonStrategies.getD [] }, ?_, hfa⟩
    simp [Options.build, hms, bind, Except.bind]
  · rintro ⟨k, s, e, hm, he⟩
    obtain ⟨e2, he2⟩ := compilePatterns_error compile _ hm he
    exact ⟨e2, by simp [Options.build, he2, bind, Except.bind]⟩

/-- A concrete stand-in for `new RegExp`: rejects the lone `(`. -/
def compileStub (s : String) : Except String Matcher :=
  if s = "(" then .error "SyntaxError: Invalid regular expression"
  else .ok { test := fun _ => true, srcStr := s }

/-- C5 witness: construction with the malformed pattern `(` fails;
construction with the well-formed pattern `x` succeeds and compiles it. -/
theorem c5_witness :
    (∃ e, Options.build compileStub
      { regexChecks := some [("a", PatternCfg.strPat "(")] } = .error e) ∧
    (∃ o, Options.build compileStub
        { regexChecks := some [("a", PatternCfg.strPat "x")] } = .ok o ∧
      List.Forall₂ (CompiledFrom compileStub) [("a", PatternCfg.strPat "x")] o.regexChecks) := by
  constructor
  · exact (c5_construction_compiles_patterns compileStub
      { regexChecks := some [("a", PatternCfg.strPat "(")] }).2
      ⟨"a", "(", "SyntaxError: Invalid regular expression", by simp, rfl⟩
  · have h := (c5_construction_compiles_patterns compileStub
      { regexChecks := some [("a", PatternCfg.strPat "x")] }).1
    exact h (by
      intro k s hm
      simp only [Option.getD_some, List.mem_singleton, Prod.mk.injEq] at hm
      obtain ⟨hk, hs⟩ := hm
      cases hs
      exact ⟨{ test := fun _ => true, srcStr := "x" }, rfl⟩)

/-! ### C7 (exact array strategy) -/

theorem extrasLoop1_unmatchedValues (path : String) :
    ∀ (l : List Value) (i : Nat) (r : ResultData),
      (Comparator.extrasLoop1 l i path r).unmatchedValues.length =
        r.unmatchedValues.length + l.length := by
  intro l
  induction l with
  | nil => intro i r; simp [Comparator.extrasLoop1]
  | cons x xs ih =>
    intro i r
    simp [Comparator.extrasLoop1, ih, ResultData.addUnmatchedValue]
    omega

theorem extrasLoop2_unmatchedValues (path : String) :
    ∀ (l : List Value) (i : Nat) (r : ResultData),
      (Comparator.extrasLoop2 l i path r).unmatchedValues.length =
        r.unmatchedValues.length + l.length := by
  intro l
  induction l with
  | nil => intro i r; simp [Comparator.extrasLoop2]
  | cons x xs ih =>
    intro i r
    simp [Comparator.extrasLoop2, ih, ResultData.addUnmatchedValue]
    omega

/-- C7: the exact strategy records the single both-lengths entry at the
array's own path exactly when the lengths differ, then compares elements
pairwise at indexed child paths up to the shorter length (recursing on
container pairs, primitive-comparing otherwise — the pair loop), and then
records one extra-element entry per index beyond the shorter length
(`len1 - min` from the first array plus `len2 - min` from the second);
with equal lengths the extras stage adds nothing. -/
theorem c7_exact_strategy (opts : OptionsT) (arr1 arr2 : List Value) (path : String)
    (r : ResultData) :
    Comparator.compareArraysExact opts arr1 arr2 path r =
      Comparator.exactExtras arr1 arr2 path
        (Comparator.exactPairLoop opts arr1 arr2 0 path
          (if arr1.length != arr2.length then
            r.addUnmatchedValue
              { path := path,
                expected := some (.str ("Array of length " ++ natStr arr1.length)),
                actual := some (.str ("Array of length " ++ natStr arr2.length)),
                message := "Array lengths do not match (exact comparison)" }
          else r)) ∧
    (∀ r2 : ResultData, (Comparator.exactExtras arr1 arr2 path r2).unmatchedValues.length =
      r2.unmatchedValues.length + (arr1.length - min arr1.length arr2.length) +
        (arr2.length - min arr1.length arr2.length)) ∧
    (arr1.length = arr2.length →
      ∀ r2 : ResultData, Comparator.exactExtras arr1 arr2 path r2 = r2) := by
  refine ⟨?_, ?_, ?_⟩
  · rw [Comparator.compareArraysExact]
  · intro r2
    simp only [Comparator.exactExtras, extrasLoop1_unmatchedValues,
      extrasLoop2_unmatchedValues, List.length_drop]
  · intro hlen r2
    simp only [Comparator.exactExtras, hlen, Nat.min_self, List.drop_length]
    rw [show List.drop arr2.length arr1 = [] from hlen ▸ List.drop_length arr1]
    simp [Comparator.extrasLoop1, Comparator.extrasLoop2]

/-- C7 witness: the decomposition, extras count and equal-length identity
at concrete arrays. -/
theorem c7_witness :
    (Comparator.compareArraysExact defaultOptions [.num 1] [] "p" JSONCompare.freshResult =
      Comparator.exactExtras [.num 1] [] "p"
        (Comparator.exactPairLoop defaultOptions [.num 1] [] 0 "p"
          (if [Value.num 1].length != List.length ([] : List Value) then
            JSONCompare.freshResult.addUnmatchedValue
              { path := "p",
                expected := some (.str ("Array of length " ++ natStr 1)),
                actual := some (.str ("Array of length " ++ natStr 0)),
                message := "Array lengths do not match (exact comparison)" }
          else JSONCompare.freshResult))) ∧
    ((Comparator.exactExtras [.num 1] [] "p" JSONCompare.freshResult).unmatchedValues.length =
      JSONCompare.freshResult.unmatchedValues.length +
        (List.length [Value.num 1] - min (List.length [Value.num 1]) (List.length ([] : List Value))) +
        (List.length ([] : List Value) - min (List.length [Value.num 1]) (List.length ([] : List Value)))) ∧
    Comparator.exactExtras [] [] "p" JSONCompare.freshResult = JSONCompare.freshResult :=
  ⟨(c7_exact_strategy defaultOptions [.num 1] [] "p" JSONCompare.freshResult).1,
   (c7_exact_strategy defaultOptions [.num 1] [] "p" JSONCompare.freshResult).2.1
     JSONCompare.freshResult,
   (c7_exact_strategy defaultOptions [] [] "p" JSONCompare.freshResult).2.2 rfl
     JSONCompare.freshResult⟩

/-! ### C8 (set array strategy) -/

namespace Comparator

theorem any_key (m : List (Value × Nat)) (k : Value) :
    (m.any fun p => p.1 == k) = true ↔ k ∈ m.map Prod.fst := by
  rw [List.any_eq_true]
  constructor
  · rintro ⟨p, hp, hpk⟩
    exact List.mem_map.mpr ⟨p, hp, by simpa using hpk⟩
  · intro h
    obtain ⟨p, hp, hpk⟩ := List.mem_map.mp h
    exact ⟨p, hp, by simp [hpk]⟩

theorem mapHas_iff_mem_keys (m : List (Value × Nat)) (k : Value) :
    mapHas m k = true ↔ k ∈ m.map Prod.fst := any_key m k

theorem replace_fst (k : Value) (p : Value × Nat) :
    (if p.1 == k then (p.1, p.2 + 1) else p).1 = p.1 := by
  by_cases hh : p.1 == k
  · rw [if_pos hh]
  · rw [if_neg hh]

theorem find?_map_keyPreserving (m : List (Value × Nat)) (k : Value)
    (f : Value × Nat → Value × Nat) (hf : ∀ p, (f p).1 = p.1) :
    (m.map f).find? (fun p => p.1 == k) =
      (m.find? (fun p => p.1 == k)).map f := by
  induction m with
  | nil => simp
  | cons p rest ih =>
    simp only [List.map_cons, List.find?]
    rw [hf p]
    cases hk : p.1 == k
    · simpa using ih
    · simp

theorem mapCount_eq_zero_of_not_mem (m : List (Value × Nat)) (k : Value)
    (h : k ∉ m.map Prod.fst) : mapCount m k = 0 := by
  unfold mapCount
  rw [(List.find?_eq_none).mpr]
  intro p hp hpk
  exact h (List.mem_map.mpr ⟨p, hp, by simpa using hpk⟩)

theorem mapIncr_count_self (m : List (Value × Nat)) (k : Value) :
    mapCount (mapIncr m k) k = mapCount m k + 1 := by
  unfold mapIncr
  by_cases han : (m.any fun p => p.1 == k) = true
  · rw [if_pos han]
    obtain ⟨p, hp, hpk⟩ := List.any_eq_true.mp han
    unfold mapCount
    rw [find?_map_keyPreserving m k _ (replace_fst k)]
    cases hf : m.find? (fun p => p.1 == k) with
    | none =>
      rw [List.find?_eq_none] at hf
      exact absurd hpk (hf p hp)
    | some q =>
      have hq := List.find?_some (p := fun p : Value × Nat => p.1 == k) hf
      simp only [beq_iff_eq] at hq
      simp [hq]
  · rw [if_neg han]
    have hnm : k ∉ m.map Prod.fst := fun hm => han ((any_key m k).mpr hm)
    unfold mapCount
    rw [List.find?_append, (List.find?_eq_none (l := m)).mpr
      (fun p hp hpk => hnm (List.mem_map.mpr ⟨p, hp, by simpa using hpk⟩))]
    have h0 := mapCount_eq_zero_of_not_mem m k hnm
    unfold mapCount at h0
    rw [(List.find?_eq_none (l := m)).mpr
      (fun p hp hpk => hnm (List.mem_map.mpr ⟨p, hp, by simpa using hpk⟩))] at h0
    simp [List.find?]

theorem mapIncr_count_other (m : List (Value × Nat)) {k k0 : Value} (h : k ≠ k0) :
    mapCount (mapIncr m k0) k = mapCount m k := by
  unfold mapIncr
  by_cases han : (m.any fun p => p.1 == k0) = true
  · rw [if_pos han]
    unfold mapCount
    rw [find?_map_keyPreserving m k _ (replace_fst k0)]
    cases hf : m.find? (fun p => p.1 == k) with
    | none => simp
    | some q =>
      have hq := List.find?_some (p := fun p : Value × Nat => p.1 == k) hf
      simp only [beq_iff_eq] at hq
      simp [hq, h]
  · rw [if_neg han]
    unfold mapCount
    rw [List.find?_append]
    have hsingle : List.find? (fun p => p.1 == k) [(k0, 1)] = none := by
      have hne : (k0 == k) = false := beq_eq_false_iff_ne.mpr (Ne.symm h)
      simp [List.find?, hne]
    rw [hsingle]
    cases m.find? (fun p => p.1 == k) <;> simp

theorem foldl_mapIncr_count (ks : List Value) :
    ∀ (m : List (Value × Nat)) (k : Value),
      mapCount (ks.foldl mapIncr m) k = mapCount m k + ks.count k := by
  induction ks with
  | nil => intro m k; simp
  | cons k0 rest ih =>
    intro m k
    simp only [List.foldl_cons, ih, List.count_cons]
    by_cases hk : k = k0
    · subst hk
      simp [mapIncr_count_self]
      omega
    · rw [mapIncr_count_other m hk]
      simp [beq_iff_eq, Ne.symm hk]

theorem buildCountMap_count (arr : List Value) (k : Value) :
    mapCount (buildCountMap arr) k = (arr.map getElementKey).count k := by
  unfold buildCountMap
  rw [show (fun (m : List (Value × Nat)) (el : Value) => mapIncr m (getElementKey el)) =
    (fun m el => mapIncr m (getElementKey el)) from rfl,
    ← List.foldl_map (f := getElementKey) (g := mapIncr)]
  rw [foldl_mapIncr_count]
  simp [mapCount]

theorem mapIncr_has (m : List (Value × Nat)) (k0 k : Value) :
    mapHas (mapIncr m k0) k = (mapHas m k || k == k0) := by
  unfold mapIncr mapHas
  by_cases han : (m.any fun p => p.1 == k0) = true
  · rw [if_pos han]
    rw [List.any_map]
    have : ∀ (l : List (Value × Nat)), (l.any ((fun p => p.1 == k) ∘
        fun p => if p.1 == k0 then (p.1, p.2 + 1) else p)) = l.any (fun p => p.1 == k) := by
      intro l
      induction l with
      | nil => rfl
      | cons p rest ihl =>
        simp only [List.any_cons, ihl, Function.comp_apply, replace_fst]
    rw [this]
    cases hk : k == k0
    · simp
    · simp only [Bool.or_true]
      simp only [beq_iff_eq] at hk
      subst hk
      exact (any_key m k).mpr ((any_key m k).mp han)
  · rw [if_neg han]
    simp only [List.any_append, List.any_cons, List.any_nil, Bool.or_false]
    rw [show ((k0 == k) = (k == k0)) from by
      cases hh : k0 == k <;> cases hh2 : k == k0 <;> simp_all [beq_iff_eq] ]

theorem foldl_mapIncr_has (ks : List Value) :
    ∀ (m : List (Value × Nat)) (k : Value),
      mapHas (ks.foldl mapIncr m) k = (mapHas m k || ks.contains k) := by
  induction ks with
  | nil => intro m k; simp
  | cons k0 rest ih =>
    intro m k
    simp only [List.foldl_cons, ih, mapIncr_has, List.contains_cons]
    cases mapHas m k <;> cases hk : k == k0 <;> simp

theorem buildCountMap_has (arr : List Value) (k : Value) :
    mapHas (buildCountMap arr) k = (arr.map getElementKey).contains k := by
  unfold buildCountMap
  rw [← List.foldl_map (f := getElementKey) (g := mapIncr), foldl_mapIncr_has]
  simp [mapHas]

theorem mapIncr_mem (m : List (Value × Nat)) (k : Value) {p : Value × Nat}
    (hp : p ∈ mapIncr m k) : p ∈ m ∨ p.2 = 1 ∨ ∃ q ∈ m, p = (q.1, q.2 + 1) := by
  unfold mapIncr at hp
  by_cases han : (m.any fun q => q.1 == k) = true
  · rw [if_pos han] at hp
    obtain ⟨q, hq, hpq⟩ := List.mem_map.mp hp
    by_cases hqk : q.1 == k
    · rw [if_pos hqk] at hpq
      exact Or.inr (Or.inr ⟨q, hq, hpq.symm⟩)
    · rw [if_neg hqk] at hpq
      exact Or.inl (hpq ▸ hq)
  · rw [if_neg han] at hp
    rcases List.mem_append.mp hp with h | h
    · exact Or.inl h
    · simp at h
      exact Or.inr (Or.inl (by rw [h]))

theorem buildCountMap_pos (arr : List Value) :
    ∀ p ∈ buildCountMap arr, 0 < p.2 := by
  unfold buildCountMap
  suffices H : ∀ (l : List Value) (m : List (Value × Nat)), (∀ p ∈ m, 0 < p.2) →
      ∀ p ∈ l.foldl (fun m el => mapIncr m (getElementKey el)) m, 0 < p.2 by
    exact H arr [] (by simp)
  intro l
  induction l with
  | nil => intro m hm p hp; exact hm p hp
  | cons x rest ih =>
    intro m hm p hp
    refine ih _ ?_ p hp
    intro q hq
    rcases mapIncr_mem m (getElementKey x) hq with h | h | ⟨w, hw, hqw⟩
    · exact hm q h
    · omega
    · rw [hqw]; simp

theorem mapIncr_keys (m : List (Value × Nat)) (k : Value) :
    (mapIncr m k).map Prod.fst = m.map Prod.fst ∨
      ((mapIncr m k).map Prod.fst = m.map Prod.fst ++ [k] ∧ k ∉ m.map Prod.fst) := by
  unfold mapIncr
  by_cases han : (m.any fun q => q.1 == k) = true
  · rw [if_pos han]
    left
    rw [List.map_map]
    refine List.map_congr_left ?_
    intro p _
    exact replace_fst k p
  · rw [if_neg han]
    right
    refine ⟨by simp, fun hm => han ((any_key m k).mpr hm)⟩

theorem mapIncr_keys_nodup {m : List (Value × Nat)} (k : Value)
    (hm : (m.map Prod.fst).Nodup) : ((mapIncr m k).map Prod.fst).Nodup := by
  rcases mapIncr_keys m k with h | ⟨h, hk⟩
  · rw [h]; exact hm
  · rw [h]
    refine List.Nodup.append hm (List.nodup_singleton k) ?_
    intro a ha hb
    rw [List.mem_singleton] at hb
    exact hk (hb ▸ ha)

theorem buildCountMap_keys_nodup (arr : List Value) :
    ((buildCountMap arr).map Prod.fst).Nodup := by
  unfold buildCountMap
  suffices H : ∀ (l : List Value) (m : List (Value × Nat)),
      (m.map Prod.fst).Nodup →
      ((l.foldl (fun m el => mapIncr m (getElementKey el)) m).map Prod.fst).Nodup by
    exact H arr [] (by simp)
  intro l
  induction l with
  | nil => intro m hm; exact hm
  | cons x rest ih =>
    intro m hm
    exact ih _ (mapIncr_keys_nodup _ hm)

theorem find?_mem_of_keys_nodup {m : List (Value × Nat)} {p : Value × Nat}
    (hp : p ∈ m) (hnd : (m.map Prod.fst).Nodup) :
    m.find? (fun q => q.1 == p.1) = some p := by
  induction m with
  | nil => simp at hp
  | cons q rest ih =>
    simp only [List.map_cons, List.nodup_cons] at hnd
    rcases List.mem_cons.mp hp with h | h
    · subst h
      simp [List.find?]
    · have hne : (q.1 == p.1) = false := by
        simp only [beq_eq_false_iff_ne, ne_eq]
        intro hq
        exact hnd.1 (hq ▸ List.mem_map.mpr ⟨p, h, rfl⟩)
      simp only [List.find?, hne]
      exact ih h hnd.2

theorem buildCountMap_entry_count {arr : List Value} {p : Value × Nat}
    (hp : p ∈ buildCountMap arr) :
    p.2 = (arr.map getElementKey).count p.1 := by
  have h1 := find?_mem_of_keys_nodup hp (buildCountMap_keys_nodup arr)
  have h2 := buildCountMap_count arr p.1
  unfold mapCount at h2
  rw [h1] at h2
  exact h2

theorem setLoop1_id (m2 : List (Value × Nat)) (path : String) :
    ∀ (l : List (Value × Nat)) (b : Bool) (r : ResultData),
      (∀ p ∈ l, p.2 = mapCount m2 p.1) → setLoop1 m2 path l (b, r) = (b, r) := by
  intro l
  induction l with
  | nil => intro b r _; rfl
  | cons p rest ih =>
    intro b r h
    obtain ⟨k, c⟩ := p
    have hc : c = mapCount m2 k := h (k, c) (List.mem_cons_self _ _)
    simp only [setLoop1]
    rw [if_neg (by simp [hc])]
    exact ih b r (fun q hq => h q (List.mem_cons_of_mem _ hq))

theorem setLoop2_id (m1 : List (Value × Nat)) (path : String) :
    ∀ (l : List (Value × Nat)) (b : Bool) (r : ResultData),
      (∀ p ∈ l, mapHas m1 p.1 = true) → setLoop2 m1 path l (b, r) = (b, r) := by
  intro l
  induction l with
  | nil => intro b r _; rfl
  | cons p rest ih =>
    intro b r h
    obtain ⟨k, c⟩ := p
    have hc : mapHas m1 k = true := h (k, c) (List.mem_cons_self _ _)
    simp only [setLoop2]
    rw [if_neg (by simp [hc])]
    exact ih b r (fun q hq => h q (List.mem_cons_of_mem _ hq))

theorem setLoop1_fst (m2 : List (Value × Nat)) (path : String) :
    ∀ (l : List (Value × Nat)) (st : Bool × ResultData),
      (setLoop1 m2 path l st).1 =
        (st.1 && l.all (fun p => p.2 == mapCount m2 p.1)) := by
  intro l
  induction l with
  | nil => intro st; simp [setLoop1]
  | cons p rest ih =>
    intro st
    obtain ⟨k, c⟩ := p
    obtain ⟨b, r⟩ := st
    simp only [setLoop1, List.all_cons]
    by_cases hc : c = mapCount m2 k
    · rw [if_neg (by simp [hc])]
      simp [ih, hc]
    · rw [if_pos (by simp [hc])]
      simp [ih, hc]

theorem setLoop2_fst (m1 : List (Value × Nat)) (path : String) :
    ∀ (l : List (Value × Nat)) (st : Bool × ResultData),
      (setLoop2 m1 path l st).1 =
        (st.1 && l.all (fun p => mapHas m1 p.1)) := by
  intro l
  induction l with
  | nil => intro st; simp [setLoop2]
  | cons p rest ih =>
    intro st
    obtain ⟨k, c⟩ := p
    obtain ⟨b, r⟩ := st
    simp only [setLoop2, List.all_cons]
    by_cases hc : mapHas m1 k = true
    · rw [if_neg (by simp [hc])]
      simp [ih, hc]
    · rw [if_pos (by simp [hc])]
      simp [ih]
      simp only [Bool.not_eq_true] at hc
      simp [hc]

theorem setLoop1_matched (m2 : List (Value × Nat)) (path : String) :
    ∀ (l : List (Value × Nat)) (st : Bool × ResultData),
      (setLoop1 m2 path l st).2.matchedValues = st.2.matchedValues := by
  intro l
  induction l with
  | nil => intro st; rfl
  | cons p rest ih =>
    intro st
    obtain ⟨k, c⟩ := p
    obtain ⟨b, r⟩ := st
    simp only [setLoop1]
    by_cases hc : c ≠ mapCount m2 k
    · rw [if_pos (by simp [hc])]
      simp [ih, ResultData.addUnmatchedValue]
    · rw [if_neg (by simp only [ne_eq, not_not] at hc; simp [hc])]
      exact ih (b, r)

theorem setLoop2_matched (m1 : List (Value × Nat)) (path : String) :
    ∀ (l : List (Value × Nat)) (st : Bool × ResultData),
      (setLoop2 m1 path l st).2.matchedValues = st.2.matchedValues := by
  intro l
  induction l with
  | nil => intro st; rfl
  | cons p rest ih =>
    intro st
    obtain ⟨k, c⟩ := p
    obtain ⟨b, r⟩ := st
    simp only [setLoop2]
    by_cases hc : mapHas m1 k = true
    · rw [if_neg (by simp [hc])]
      exact ih (b, r)
    · rw [if_pos (by simp [hc])]
      simp [ih, ResultData.addUnmatchedValue]

/-- The matched-value entry recording successful set-equivalence. -/
def setMatchedEntry (path : String) (n : Nat) : MatchedValueEntry :=
  { path := path,
    value := .str ("Arrays at path \x27" ++ path ++
      "\x27 successfully compared as sets (length " ++ natStr n ++ ")"),
    type1 := some "array", type2 := some "array",
    message := some ("Arrays at path \x27" ++ path ++
      "\x27 are equivalent when compared as sets.") }

theorem compareArraysAsSet_success (arr1 arr2 : List Value) (path : String)
    (r : ResultData) (hlen : arr1.length = arr2.length)
    (hperm : (arr1.map getElementKey).Perm (arr2.map getElementKey)) :
    compareArraysAsSet arr1 arr2 path r =
      r.addMatchedValue (setMatchedEntry path arr1.length) := by
  have hcount : ∀ k, (arr1.map getElementKey).count k = (arr2.map getElementKey).count k :=
    fun k => hperm.count_eq k
  simp only [compareArraysAsSet]
  rw [if_neg (by simp [hlen])]
  rw [setLoop1_id (buildCountMap arr2) path (buildCountMap arr1) true r
    (fun p hp => by
      rw [buildCountMap_entry_count hp, hcount p.1, ← buildCountMap_count arr2 p.1])]
  rw [setLoop2_id (buildCountMap arr1) path (buildCountMap arr2) true r
    (fun p hp => by
      rw [buildCountMap_has]
      have hpos : 0 < (arr2.map getElementKey).count p.1 := by
        rw [← buildCountMap_entry_count hp]
        exact buildCountMap_pos arr2 p hp
      rw [← hcount p.1] at hpos
      simpa [List.contains] using List.count_pos_iff.mp hpos)]
  rw [if_pos (by simp [hlen])]
  rfl

theorem compareArraysAsSet_verdict (arr1 arr2 : List Value) (path : String)
    (r : ResultData) :
    ((compareArraysAsSet arr1 arr2 path r).matchedValues ≠ r.matchedValues) ↔
      (arr1.length = arr2.length ∧
        ∀ k, (arr1.map getElementKey).count k = (arr2.map getElementKey).count k) := by
  by_cases hlen : arr1.length = arr2.length
  · simp only [compareArraysAsSet]
    rw [if_neg (by simp [hlen])]
    have hmatched :
        (setLoop2 (buildCountMap arr1) path (buildCountMap arr2)
          (setLoop1 (buildCountMap arr2) path (buildCountMap arr1) (true, r))).2.matchedValues
          = r.matchedValues := by
      rw [setLoop2_matched, setLoop1_matched]
    have hfst :
        (setLoop2 (buildCountMap arr1) path (buildCountMap arr2)
          (setLoop1 (buildCountMap arr2) path (buildCountMap arr1) (true, r))).1 =
          ((buildCountMap arr1).all (fun p => p.2 == mapCount (buildCountMap arr2) p.1) &&
            (buildCountMap arr2).all (fun p => mapHas (buildCountMap arr1) p.1)) := by
      rw [setLoop2_fst, setLoop1_fst]
      simp
    by_cases hcond : ((buildCountMap arr1).all
        (fun p => p.2 == mapCount (buildCountMap arr2) p.1) &&
          (buildCountMap arr2).all (fun p => mapHas (buildCountMap arr1) p.1)) = true
    · rw [if_pos (by rw [hfst, hcond]; simp [hlen])]
      simp only [ResultData.addMatchedValue, hmatched]
      constructor
      · intro _
        refine ⟨hlen, ?_⟩
        simp only [Bool.and_eq_true, List.all_eq_true] at hcond
        intro k
        by_cases hk : k ∈ (arr1.map getElementKey)
        · have hhas : mapHas (buildCountMap arr1) k = true := by
            rw [buildCountMap_has]
            simpa [List.contains] using hk
          obtain ⟨p, hp, hpk⟩ := List.any_eq_true.mp hhas
          simp only [beq_iff_eq] at hpk
          have h1 := buildCountMap_entry_count hp
          have h2 := hcond.1 p hp
          simp only [beq_iff_eq] at h2
          rw [buildCountMap_count] at h2
          rw [hpk] at h1 h2
          rw [← h1, h2]
        · have h1 : (arr1.map getElementKey).count k = 0 := by
            rw [List.count_eq_zero]
            exact hk
          by_cases hk2 : k ∈ (arr2.map getElementKey)
          · exfalso
            have hhas2 : mapHas (buildCountMap arr2) k = true := by
              rw [buildCountMap_has]
              simpa [List.contains] using hk2
            obtain ⟨p, hp, hpk⟩ := List.any_eq_true.mp hhas2
            simp only [beq_iff_eq] at hpk
            have h3 := hcond.2 p hp
            rw [buildCountMap_has] at h3
            rw [hpk] at h3
            have : k ∈ arr1.map getElementKey := by
              simpa [List.contains] using h3
            exact hk this
          · rw [h1, List.count_eq_zero.mpr hk2]
      · intro _
        intro hcontra
        have := congrArg List.length hcontra
        simp at this
    · rw [if_neg (by rw [hfst]; simp [hcond])]
      rw [hmatched]
      simp only [ne_eq, not_true_eq_false, false_iff, not_and]
      intro _ hk
      apply hcond
      simp only [Bool.and_eq_true, List.all_eq_true]
      constructor
      · intro p hp
        simp only [beq_iff_eq]
        rw [buildCountMap_entry_count hp, hk p.1, ← buildCountMap_count arr2 p.1]
      · intro p hp
        rw [buildCountMap_has]
        have hpos : 0 < (arr2.map getElementKey).count p.1 := by
          rw [← buildCountMap_entry_count hp]
          exact buildCountMap_pos arr2 p hp
        rw [← hk p.1] at hpos
        simpa [List.contains] using List.count_pos_iff.mp hpos
  · simp only [compareArraysAsSet]
    rw [if_pos (by simp [hlen])]
    simp [ResultData.addUnmatchedValue, hlen]

theorem compareArraysAsSet_perm_invariant
    (arr1 arr1x arr2 arr2x : List Value) (h1 : arr1.Perm arr1x) (h2 : arr2.Perm arr2x)
    (path pathx : String) (r rx : ResultData) :
    ((compareArraysAsSet arr1 arr2 path r).matchedValues ≠ r.matchedValues) ↔
      ((compareArraysAsSet arr1x arr2x pathx rx).matchedValues ≠ rx.matchedValues) := by
  rw [compareArraysAsSet_verdict, compareArraysAsSet_verdict]
  have hm1 := h1.map getElementKey
  have hm2 := h2.map getElementKey
  constructor
  · rintro ⟨hl, hc⟩
    refine ⟨by rw [← h1.length_eq, ← h2.length_eq]; exact hl, fun k => ?_⟩
    rw [← hm1.count_eq k, ← hm2.count_eq k]
    exact hc k
  · rintro ⟨hl, hc⟩
    refine ⟨by rw [h1.length_eq, h2.length_eq]; exact hl, fun k => ?_⟩
    rw [hm1.count_eq k, hm2.count_eq k]
    exact hc k

end Comparator

/-- C8: the set strategy is order-independent: equal-length arrays that
are equal as multisets under the element keying produce exactly one
matched-value entry at the array path and no unmatched entries; permuting
either array never changes the set-strategy verdict (whether the
success entry is recorded); and the concrete comparison of `{a:[1,2,3]}`
with `{a:[3,2,1]}` under `{a:{type:'set'}}` yields 100%. -/
theorem c8_set_strategy_order_independent :
    (∀ (arr1 arr2 : List Value) (path : String) (r : ResultData),
      arr1.length = arr2.length →
      (arr1.map Comparator.getElementKey).Perm (arr2.map Comparator.getElementKey) →
      Comparator.compareArraysAsSet arr1 arr2 path r =
        r.addMatchedValue (Comparator.setMatchedEntry path arr1.length)) ∧
    (∀ (arr1 arr1x arr2 arr2x : List Value),
      arr1.Perm arr1x → arr2.Perm arr2x →
      ∀ (path pathx : String) (r rx : ResultData),
      (((Comparator.compareArraysAsSet arr1 arr2 path r).matchedValues ≠ r.matchedValues) ↔
        ((Comparator.compareArraysAsSet arr1x arr2x pathx rx).matchedValues ≠ rx.matchedValues))) ∧
    ((JSONCompare.compare
        { defaultOptions with arrayComparisonStrategies := [("a", { type := some "set" })] }
        (.obj [("a", .arr [.num 1, .num 2, .num 3])])
        (.obj [("a", .arr [.num 3, .num 2, .num 1])])).summary.matchPercentage = 100 ∧
      (JSONCompare.compare
        { defaultOptions with arrayComparisonStrategies := [("a", { type := some "set" })] }
        (.obj [("a", .arr [.num 1, .num 2, .num 3])])
        (.obj [("a", .arr [.num 3, .num 2, .num 1])])).unmatchedValues = []) := by
  refine ⟨fun arr1 arr2 path r hl hp =>
      Comparator.compareArraysAsSet_success arr1 arr2 path r hl hp,
    fun arr1 arr1x arr2 arr2x h1 h2 path pathx r rx =>
      Comparator.compareArraysAsSet_perm_invariant arr1 arr1x arr2 arr2x h1 h2 path pathx r rx,
    ?_, ?_⟩ <;>
    simp [JSONCompare.compare, JSONCompare.freshResult, ResultData.reset,
      Comparator.compareObjects, Comparator.compareKeysLoop, Comparator.extraKeysLoop,
      Comparator.compareArrays, Comparator.compareArraysAsSet, Comparator.setLoop1,
      Comparator.setLoop2, Comparator.buildCountMap, Comparator.mapIncr,
      Comparator.mapCount, Comparator.mapHas, Comparator.getElementKey,
      Comparator.compareValues, Comparator.equivFind, Comparator.getValueType,
      RegexValidator.validateValue, RegexValidator.validateValueLoop,
      jsGet, jsHas, jsOwnKeys, jsIsContainer, Value.isArray, Value.arrElems,
      PathUtils.buildPath, ResultData.addMatchedKey, ResultData.addMatchedValue,
      ResultData.addUnmatchedKey, ResultData.addUnmatchedValue, ResultData.addUnmatchedType,
      ResultData.updateSummary, defaultOptions, beqValue, List.lookup]

/-- C8 witness: the success equality and verdict invariance applied at
concrete arrays, hypotheses discharged by computation. -/
theorem c8_witness :
    Comparator.compareArraysAsSet [.num 1, .num 2] [.num 2, .num 1] "p" JSONCompare.freshResult =
      JSONCompare.freshResult.addMatchedValue (Comparator.setMatchedEntry "p" 2) ∧
    (((Comparator.compareArraysAsSet [.num 1, .num 2] [.num 2, .num 1] "p"
        JSONCompare.freshResult).matchedValues ≠ JSONCompare.freshResult.matchedValues) ↔
      ((Comparator.compareArraysAsSet [.num 2, .num 1] [.num 1, .num 2] "q"
        JSONCompare.freshResult).matchedValues ≠ JSONCompare.freshResult.matchedValues)) :=
  ⟨c8_set_strategy_order_independent.1 [.num 1, .num 2] [.num 2, .num 1] "p"
      JSONCompare.freshResult rfl (by decide),
   c8_set_strategy_order_independent.2.1 [.num 1, .num 2] [.num 2, .num 1]
      [.num 2, .num 1] [.num 1, .num 2] (by decide) (by decide) "p" "q"
      JSONCompare.freshResult JSONCompare.freshResult⟩

/-! ### C9 (path round-trip) -/

theorem digitChar_isDigit {d : Nat} (h : d < 10) : (digitChar d).isDigit = true := by
  interval_cases d <;> decide

theorem digitChar_toNat {d : Nat} (h : d < 10) : (digitChar d).toNat = 48 + d := by
  interval_cases d <;> decide

theorem natChars_ne_nil (n : Nat) : natChars n ≠ [] := by
  rw [natChars_unfold]
  by_cases h : n < 10 <;> simp [h]

theorem natChars_digits (n : Nat) : ∀ c ∈ natChars n, c.isDigit = true := by
  induction n using Nat.strong_induction_on with
  | _ n ih =>
    rw [natChars_unfold]
    by_cases h : n < 10
    · simp only [if_pos h, List.mem_singleton]
      rintro c rfl
      exact digitChar_isDigit h
    · simp only [if_neg h, List.mem_append, List.mem_singleton]
      rintro c (hc | rfl)
      · exact ih (n / 10) (Nat.div_lt_self (by omega) (by omega)) c hc
      · exact digitChar_isDigit (Nat.mod_lt n (by omega))

theorem natChars_not_dot (n : Nat) : '.' ∉ natChars n := by
  intro h
  have := natChars_digits n '.' h
  simp [Char.isDigit] at this

theorem natChars_not_bracket (n : Nat) : '[' ∉ natChars n := by
  intro h
  have := natChars_digits n '[' h
  simp [Char.isDigit] at this

theorem natChars_foldl (n : Nat) :
    (natChars n).foldl (fun a c => a * 10 + (c.toNat - 48)) 0 = n := by
  suffices H : ∀ a, (natChars n).foldl (fun a c => a * 10 + (c.toNat - 48)) a =
      a * 10 ^ (natChars n).length + n by
    simpa using H 0
  induction n using Nat.strong_induction_on with
  | _ n ih =>
    intro a
    by_cases h : n < 10
    · rw [natChars_unfold, if_pos h]
      simp [digitChar_toNat h]
    · have hstep : natChars n = natChars (n / 10) ++ [digitChar (n % 10)] := by
        rw [natChars_unfold, if_neg h]
      rw [hstep, List.foldl_append, ih (n / 10) (Nat.div_lt_self (by omega) (by omega)) a]
      simp only [List.foldl_cons, List.foldl_nil, List.length_append,
        List.length_singleton]
      rw [digitChar_toNat (Nat.mod_lt n (by omega))]
      have key : ∀ b : Nat, (b + n / 10) * 10 + (48 + n % 10 - 48) = b * 10 + n := by
        intro b
        omega
      rw [key, pow_succ, ← mul_assoc]

theorem parseNatDigits_natChars (n : Nat) : parseNatDigits (natChars n) = some n := by
  unfold parseNatDigits
  rw [if_pos ⟨natChars_ne_nil n, List.all_eq_true.mpr (natChars_digits n)⟩]
  rw [natChars_foldl]

theorem canonicalIndex_natStr (n : Nat) : canonicalIndex (natStr n) = some n := by
  have h := parseNatDigits_natChars n
  simp [canonicalIndex, natStr, h]

namespace PathUtils

theorem splitOnDot_cons_ne_dot {c : Char} (hc : c ≠ '.') (l : List Char) :
    splitOnDot (c :: l) =
      match splitOnDot l with
      | h :: t => (c :: h) :: t
      | [] => [[c]] := by
  rw [splitOnDot]
  exact hc

theorem splitOnDot_ne_nil (l : List Char) : splitOnDot l ≠ [] := by
  induction l with
  | nil => simp [splitOnDot]
  | cons c rest ih =>
    by_cases hc : c = '.'
    · subst hc
      simp [splitOnDot]
    · rw [splitOnDot_cons_ne_dot hc]
      cases hs : splitOnDot rest <;> simp

theorem splitOnDot_no_dot (l : List Char) (h : '.' ∉ l) : splitOnDot l = [l] := by
  induction l with
  | nil => rfl
  | cons c rest ih =>
    have hc : c ≠ '.' := fun hh => h (hh ▸ List.mem_cons_self _ _)
    rw [splitOnDot_cons_ne_dot hc]
    rw [ih (fun hm => h (List.mem_cons_of_mem _ hm))]

theorem splitOnDot_append_dot (xs ys : List Char) (h : '.' ∉ xs) :
    splitOnDot (xs ++ '.' :: ys) = xs :: splitOnDot ys := by
  induction xs with
  | nil => simp [splitOnDot]
  | cons c rest ih =>
    have hc : c ≠ '.' := fun hh => h (hh ▸ List.mem_cons_self _ _)
    rw [List.cons_append, splitOnDot_cons_ne_dot hc]
    rw [ih (fun hm => h (List.mem_cons_of_mem _ hm))]

theorem replaceBrackets_cons_ne_bracket {c : Char} (hc : c ≠ '[') (l : List Char) :
    replaceBrackets (c :: l) = c :: replaceBrackets l := by
  rw [replaceBrackets]
  rw [if_neg hc]

theorem replaceBrackets_append_no_bracket (xs ys : List Char) (h : '[' ∉ xs) :
    replaceBrackets (xs ++ ys) = xs ++ replaceBrackets ys := by
  induction xs with
  | nil => simp
  | cons c rest ih =>
    have hc : c ≠ '[' := fun hh => h (hh ▸ List.mem_cons_self _ _)
    rw [List.cons_append, replaceBrackets_cons_ne_bracket hc,
      ih (fun hm => h (List.mem_cons_of_mem _ hm))]
    rfl

theorem replaceBracketsScan_digits (ds : List Char) (hds : ∀ c ∈ ds, c.isDigit = true) :
    ∀ (acc : List Char) (ys : List Char),
      replaceBracketsScan (ds ++ ']' :: ys) acc =
        (if acc.reverse ++ ds = [] then '[' :: ']' :: replaceBrackets ys
         else '.' :: (acc.reverse ++ ds) ++ replaceBrackets ys) := by
  induction ds with
  | nil =>
    intro acc ys
    rw [List.nil_append, replaceBracketsScan]
    by_cases hacc : acc = []
    · subst hacc
      simp
    · have h2 : acc.reverse ≠ [] := by simpa using hacc
      simp [hacc, h2]
  | cons d rest ih =>
    intro acc ys
    have hd : d.isDigit = true := hds d (List.mem_cons_self _ _)
    rw [List.cons_append, replaceBracketsScan, hd]
    simp only [if_pos rfl]
    rw [ih (fun c hc => hds c (List.mem_cons_of_mem _ hc)) (d :: acc) ys]
    simp

theorem replaceBrackets_bracket (n : Nat) (ys : List Char) :
    replaceBrackets ('[' :: (natChars n ++ ']' :: ys)) =
      '.' :: natChars n ++ replaceBrackets ys := by
  rw [replaceBrackets]
  rw [if_pos rfl]
  rw [replaceBracketsScan_digits (natChars n) (natChars_digits n) [] ys]
  rw [List.reverse_nil, List.nil_append]
  rw [if_neg (natChars_ne_nil n)]

end PathUtils

/-! ## C9 analysis: path segments

Scaffolding relating `getAllPaths` output to the parsing done by
`getValueAtPath`: a terminal path is a rendered list of segments. -/

/-- One path segment: an object key or an array index. -/
inductive Seg where
  | key (k : String) : Seg
  | idx (n : Nat) : Seg

namespace PathUtils

/-- Extending a current path by one segment, exactly as the traversal in
`getAllPaths` does (for indices the empty/nonempty cases coincide). -/
def segExtend (cur : String) : Seg → String
  | .key k => buildPath cur k
  | .idx n => cur ++ "[" ++ natStr n ++ "]"

/-- Rendering a segment list starting from a current path. -/
def renderFrom (cur : String) : List Seg → String
  | [] => cur
  | s :: rest => renderFrom (segExtend cur s) rest

/-- The characters a segment contributes after the leading path position:
keys come with a dot, indices with brackets. -/
def renderTail : List Seg → List Char
  | [] => []
  | .key k :: rest => '.' :: k.data ++ renderTail rest
  | .idx n :: rest => '[' :: natChars n ++ ']' :: renderTail rest

/-- The same tail after the bracket-to-dot regex replacement. -/
def dottedTail : List Seg → List Char
  | [] => []
  | .key k :: rest => '.' :: k.data ++ dottedTail rest
  | .idx n :: rest => '.' :: natChars n ++ dottedTail rest

/-- The characters of a segment as a standalone path part. -/
def segChars : Seg → List Char
  | .key k => k.data
  | .idx n => natChars n

/-- The string of a segment as a standalone path part. -/
def segPart : Seg → String
  | .key k => k
  | .idx n => natStr n

mutual

/-- The segment lists of all terminal paths of a value, in the traversal
order of `getAllPaths`. -/
def subSegs : Value → List (List Seg)
  | .null => [[]]
  | .bool _ => [[]]
  | .num _ => [[]]
  | .str _ => [[]]
  | .arr [] => [[]]
  | .arr (x :: xs) => subSegsArr (x :: xs) 0
  | .obj [] => [[]]
  | .obj (f :: fs) => subSegsFields (f :: fs)

def subSegsArr : List Value → Nat → List (List Seg)
  | [], _ => []
  | x :: xs, i => (subSegs x).map (fun segs => Seg.idx i :: segs) ++ subSegsArr xs (i + 1)

def subSegsFields : List (String × Value) → List (List Seg)
  | [] => []
  | (k, v) :: fs => (subSegs v).map (fun segs => Seg.key k :: segs) ++ subSegsFields fs

end

/-- A key that survives the path round trip: nonempty, with no `.` and no
`[` characters. -/
def cleanKey (k : String) : Bool :=
  decide (k.data ≠ []) && decide ('.' ∉ k.data) && decide ('[' ∉ k.data)

/-- Field lists without duplicate keys (so `lookup` finds the traversed
binding). -/
def keysNodup : List (String × Value) → Bool
  | [] => true
  | (k, _) :: fs => !(fs.any (fun p => p.1 == k)) && keysNodup fs

mutual

/-- Values whose every object level has clean, duplicate-free keys. -/
def cleanValue : Value → Bool
  | .null => true
  | .bool _ => true
  | .num _ => true
  | .str _ => true
  | .arr l => cleanValueList l
  | .obj fs => keysNodup fs && cleanValueFields fs

def cleanValueList : List Value → Bool
  | [] => true
  | x :: xs => cleanValue x && cleanValueList xs

def cleanValueFields : List (String × Value) → Bool
  | [] => true
  | (k, v) :: fs => cleanKey k && cleanValue v && cleanValueFields fs

end

theorem getAllPathsArr_eq (l : List Value)
    (hl : ∀ x ∈ l, ∀ cur acc, getAllPaths x cur acc = acc ++ (subSegs x).map (renderFrom cur)) :
    ∀ (i : Nat) (cur : String) (acc : List String),
      getAllPathsArr l i cur acc = acc ++ (subSegsArr l i).map (renderFrom cur) := by
  induction l with
  | nil => intro i cur acc; simp [getAllPathsArr, subSegsArr]
  | cons x xs ih =>
    intro i cur acc
    rw [getAllPathsArr]
    have hnp : (if cur = "" then "[" ++ natStr i ++ "]" else cur ++ "[" ++ natStr i ++ "]") =
        segExtend cur (.idx i) := by
      by_cases h : cur = ""
      · rw [if_pos h, h]
        rfl
      · rw [if_neg h]
        rfl
    rw [hnp, hl x (List.mem_cons_self _ _),
      ih (fun y hy => hl y (List.mem_cons_of_mem _ hy)) (i + 1) cur _]
    rw [subSegsArr, List.map_append, List.map_map, List.append_assoc]
    rfl

theorem getAllPathsFields_eq (f : List (String × Value))
    (hf : ∀ kv ∈ f, ∀ cur acc, getAllPaths kv.2 cur acc = acc ++ (subSegs kv.2).map (renderFrom cur)) :
    ∀ (cur : String) (acc : List String),
      getAllPathsFields f cur acc = acc ++ (subSegsFields f).map (renderFrom cur) := by
  induction f with
  | nil => intro cur acc; simp [getAllPathsFields, subSegsFields]
  | cons kv fs ih =>
    obtain ⟨k, v⟩ := kv
    intro cur acc
    rw [getAllPathsFields]
    have hnp : (if cur = "" then k else cur ++ "." ++ k) = segExtend cur (.key k) := rfl
    rw [hnp, hf (k, v) (List.mem_cons_self _ _),
      ih (fun y hy => hf y (List.mem_cons_of_mem _ hy)) cur _]
    rw [subSegsFields, List.map_append, List.map_map, List.append_assoc]
    rfl

theorem getAllPaths_subSegs (v : Value) :
    ∀ (cur : String) (acc : List String),
      getAllPaths v cur acc = acc ++ (subSegs v).map (renderFrom cur) := by
  induction v using Value.inductionOn with
  | hnull => intro cur acc; rfl
  | hbool b => intro cur acc; rfl
  | hnum n => intro cur acc; rfl
  | hstr s => intro cur acc; rfl
  | harr l hl =>
    intro cur acc
    cases l with
    | nil => rfl
    | cons x xs =>
      rw [getAllPaths, getAllPathsArr_eq _ hl 0 cur acc]
      rfl
  | hobj f hf =>
    intro cur acc
    cases f with
    | nil => rfl
    | cons kv fs =>
      rw [getAllPaths, getAllPathsFields_eq _ hf cur acc]
      rfl

theorem mem_subSegsArr {l : List Value} {j : Nat} {segs : List Seg}
    (h : segs ∈ subSegsArr l j) :
    ∃ i x segs', l.get? i = some x ∧ segs = .idx (j + i) :: segs' ∧ segs' ∈ subSegs x := by
  induction l generalizing j with
  | nil => simp [subSegsArr] at h
  | cons x xs ih =>
    rw [subSegsArr] at h
    rcases List.mem_append.1 h with h1 | h2
    · rcases List.mem_map.1 h1 with ⟨segs', hs', rfl⟩
      exact ⟨0, x, segs', rfl, by simp, hs'⟩
    · obtain ⟨i, y, segs', hg, he, hm⟩ := ih h2
      have harith : j + 1 + i = j + (i + 1) := by omega
      rw [harith] at he
      exact ⟨i + 1, y, segs', by simpa using hg, he, hm⟩

theorem mem_subSegsFields {f : List (String × Value)} {segs : List Seg}
    (h : segs ∈ subSegsFields f) :
    ∃ k v segs', (k, v) ∈ f ∧ segs = .key k :: segs' ∧ segs' ∈ subSegs v := by
  induction f with
  | nil => simp [subSegsFields] at h
  | cons kv fs ih =>
    obtain ⟨k, v⟩ := kv
    rw [subSegsFields] at h
    rcases List.mem_append.1 h with h1 | h2
    · rcases List.mem_map.1 h1 with ⟨segs', hs', rfl⟩
      exact ⟨k, v, segs', List.mem_cons_self _ _, rfl, hs'⟩
    · obtain ⟨k1, v1, segs', hmem, he, hm⟩ := ih h2
      exact ⟨k1, v1, segs', List.mem_cons_of_mem _ hmem, he, hm⟩

theorem cleanValueList_mem {l : List Value} (h : cleanValueList l = true) :
    ∀ x ∈ l, cleanValue x = true := by
  induction l with
  | nil => simp
  | cons x xs ih =>
    rw [cleanValueList, Bool.and_eq_true] at h
    intro y hy
    rcases List.mem_cons.1 hy with rfl | hy2
    · exact h.1
    · exact ih h.2 y hy2

theorem cleanValueFields_mem {f : List (String × Value)} (h : cleanValueFields f = true) :
    ∀ p ∈ f, cleanKey p.1 = true ∧ cleanValue p.2 = true := by
  induction f with
  | nil => simp
  | cons kv fs ih =>
    obtain ⟨k, v⟩ := kv
    rw [cleanValueFields, Bool.and_eq_true, Bool.and_eq_true] at h
    intro p hp
    rcases List.mem_cons.1 hp with rfl | hp2
    · exact ⟨h.1.1, h.1.2⟩
    · exact ih h.2 p hp2

theorem lookup_of_keysNodup {f : List (String × Value)} (hnd : keysNodup f = true)
    {k : String} {v : Value} (hm : (k, v) ∈ f) : f.lookup k = some v := by
  induction f with
  | nil => simp at hm
  | cons p fs ih =>
    obtain ⟨k1, v1⟩ := p
    rw [keysNodup, Bool.and_eq_true] at hnd
    rcases List.mem_cons.1 hm with he | hm2
    · obtain ⟨rfl, rfl⟩ := Prod.mk.injEq .. ▸ he
      simp [List.lookup]
    · have hne : (k == k1) = false := by
        by_cases hkk : k = k1
        · exfalso
          subst hkk
          have : fs.any (fun p => p.1 == k) = true :=
            List.any_eq_true.2 ⟨(k, v), hm2, by simp⟩
          simp [this] at hnd
        · simpa using hkk
      rw [List.lookup, hne]
      exact ih hnd.2 hm2

theorem subSegs_clean_walk (v : Value) :
    cleanValue v = true → ∀ segs ∈ subSegs v,
      (∀ k, Seg.key k ∈ segs → cleanKey k = true) ∧
        pathWalk (some v) (segs.map segPart) ≠ none := by
  induction v using Value.inductionOn with
  | hnull =>
    intro _ segs hs
    rw [subSegs, List.mem_singleton] at hs
    subst hs
    exact ⟨by simp, by simp [pathWalk]⟩
  | hbool b =>
    intro _ segs hs
    rw [subSegs, List.mem_singleton] at hs
    subst hs
    exact ⟨by simp, by simp [pathWalk]⟩
  | hnum n =>
    intro _ segs hs
    rw [subSegs, List.mem_singleton] at hs
    subst hs
    exact ⟨by simp, by simp [pathWalk]⟩
  | hstr s =>
    intro _ segs hs
    rw [subSegs, List.mem_singleton] at hs
    subst hs
    exact ⟨by simp, by simp [pathWalk]⟩
  | harr l hl =>
    intro hc segs hs
    cases l with
    | nil =>
      rw [subSegs, List.mem_singleton] at hs
      subst hs
      exact ⟨by simp, by simp [pathWalk]⟩
    | cons x xs =>
      rw [subSegs] at hs
      obtain ⟨i, y, segs', hg, rfl, hm⟩ := mem_subSegsArr hs
      have hy : y ∈ x :: xs := List.get?_mem hg
      have hcl : cleanValueList (x :: xs) = true := hc
      have hcy : cleanValue y = true := cleanValueList_mem hcl y hy
      obtain ⟨hkeys, hwalk⟩ := hl y hy hcy segs' hm
      refine ⟨?_, ?_⟩
      · intro k hk
        rcases List.mem_cons.1 hk with h | h
        · exact absurd h (by simp)
        · exact hkeys k h
      · rw [List.map_cons, pathWalk]
        have hcont : jsIsContainer (Value.arr (x :: xs)) = true := rfl
        rw [if_pos hcont]
        have hget : jsGet (.arr (x :: xs)) (segPart (.idx (0 + i))) = some y := by
          rw [segPart, jsGet]
          rw [canonicalIndex_natStr]
          simpa using hg
        rw [hget]
        exact hwalk
  | hobj f hf =>
    intro hc segs hs
    cases f with
    | nil =>
      rw [subSegs, List.mem_singleton] at hs
      subst hs
      exact ⟨by simp, by simp [pathWalk]⟩
    | cons kv fs =>
      rw [subSegs] at hs
      obtain ⟨k, v, segs', hmem, rfl, hm⟩ := mem_subSegsFields hs
      have hcc : keysNodup (kv :: fs) = true ∧ cleanValueFields (kv :: fs) = true := by
        have := hc
        rw [cleanValue, Bool.and_eq_true] at this
        exact this
      have hkv := cleanValueFields_mem hcc.2 (k, v) hmem
      obtain ⟨hkeys, hwalk⟩ := hf (k, v) hmem hkv.2 segs' hm
      refine ⟨?_, ?_⟩
      · intro k0 hk
        rcases List.mem_cons.1 hk with h | h
        · cases h
          exact hkv.1
        · exact hkeys k0 h
      · rw [List.map_cons, pathWalk]
        have hcont : jsIsContainer (Value.obj (kv :: fs)) = true := rfl
        rw [if_pos hcont]
        have hget : jsGet (.obj (kv :: fs)) (segPart (.key k)) = some v := by
          rw [segPart, jsGet]
          exact lookup_of_keysNodup hcc.1 hmem
        rw [hget]
        exact hwalk

theorem cleanKey_spec {k : String} (h : cleanKey k = true) :
    k.data ≠ [] ∧ '.' ∉ k.data ∧ '[' ∉ k.data := by
  rw [cleanKey, Bool.and_eq_true, Bool.and_eq_true] at h
  exact ⟨of_decide_eq_true h.1.1, of_decide_eq_true h.1.2, of_decide_eq_true h.2⟩

theorem strMk_data (s : String) : String.mk s.data = s := by
  cases s
  rfl

theorem strData_append (s t : String) : (s ++ t).data = s.data ++ t.data := by
  cases s
  cases t
  rfl

theorem strData_ne_nil {s : String} (h : s.data ≠ []) : s ≠ "" := by
  intro he
  rw [he] at h
  exact h rfl

theorem renderFrom_data (segs : List Seg) :
    ∀ cur : String, cur.data ≠ [] →
      (renderFrom cur segs).data = cur.data ++ renderTail segs := by
  induction segs with
  | nil => intro cur _; rw [renderFrom, renderTail, List.append_nil]
  | cons s rest ih =>
    intro cur hcur
    cases s with
    | key k =>
      rw [renderFrom]
      have hext : segExtend cur (.key k) = cur ++ "." ++ k := by
        rw [segExtend, buildPath, if_neg (strData_ne_nil hcur)]
      have hdata : (cur ++ "." ++ k).data = cur.data ++ '.' :: k.data := by
        rw [strData_append, strData_append]
        simp
      rw [hext, ih _ (by rw [hdata]; simp [hcur]), hdata, renderTail]
      simp
    | idx n =>
      rw [renderFrom]
      have hdata : (segExtend cur (.idx n)).data = cur.data ++ '[' :: (natChars n ++ [']']) := by
        rw [segExtend, strData_append, strData_append, strData_append,
          show ("[" : String).data = ['['] from rfl,
          show ("]" : String).data = [']'] from rfl,
          show (natStr n).data = natChars n from rfl]
        simp
      rw [ih _ (by rw [hdata]; simp [hcur]), hdata, renderTail]
      simp

theorem replaceBrackets_renderTail (segs : List Seg)
    (hs : ∀ k, Seg.key k ∈ segs → cleanKey k = true) :
    replaceBrackets (renderTail segs) = dottedTail segs := by
  induction segs with
  | nil =>
    rw [renderTail, dottedTail, replaceBrackets]
  | cons s rest ih =>
    have ihr := ih (fun k hk => hs k (List.mem_cons_of_mem _ hk))
    cases s with
    | key k =>
      have hk := cleanKey_spec (hs k (List.mem_cons_self _ _))
      have hnb : '[' ∉ '.' :: k.data := by
        intro hm
        rcases List.mem_cons.1 hm with h | h
        · exact absurd h (by decide)
        · exact hk.2.2 h
      rw [renderTail, dottedTail, replaceBrackets_append_no_bracket _ _ hnb, ihr]
    | idx n =>
      rw [renderTail, dottedTail, List.cons_append, replaceBrackets_bracket, ihr]

theorem splitOnDot_dotted (segs : List Seg)
    (hs : ∀ k, Seg.key k ∈ segs → cleanKey k = true) :
    ∀ hsChars : List Char, '.' ∉ hsChars →
      splitOnDot (hsChars ++ dottedTail segs) = hsChars :: segs.map segChars := by
  induction segs with
  | nil =>
    intro hsChars hdot
    rw [dottedTail, List.append_nil, splitOnDot_no_dot _ hdot, List.map_nil]
  | cons s rest ih =>
    have ihr := ih (fun k hk => hs k (List.mem_cons_of_mem _ hk))
    intro hsChars hdot
    cases s with
    | key k =>
      have hk := cleanKey_spec (hs k (List.mem_cons_self _ _))
      rw [dottedTail, List.cons_append, splitOnDot_append_dot _ _ hdot, ihr _ hk.2.1,
        List.map_cons, segChars]
    | idx n =>
      rw [dottedTail, List.cons_append, splitOnDot_append_dot _ _ hdot,
        ihr _ (natChars_not_dot n), List.map_cons, segChars]

theorem parseParts_render {k : String} (hk : cleanKey k = true) {segs : List Seg}
    (hs : ∀ k0, Seg.key k0 ∈ segs → cleanKey k0 = true) :
    parseParts (renderFrom "" (.key k :: segs)) = k :: segs.map segPart := by
  obtain ⟨hne, hdot, hbr⟩ := cleanKey_spec hk
  have h0 : renderFrom "" (Seg.key k :: segs) = renderFrom k segs := by
    rw [renderFrom]
    rfl
  have h1 : (renderFrom k segs).data = k.data ++ renderTail segs := renderFrom_data segs k hne
  rw [parseParts, h0, h1, replaceBrackets_append_no_bracket _ _ hbr,
    replaceBrackets_renderTail segs hs, splitOnDot_dotted segs hs k.data hdot,
    List.map_cons, strMk_data, List.map_map]
  refine congrArg _ (List.map_congr_left ?_)
  intro s _
  cases s with
  | key k0 => exact strMk_data k0
  | idx n => rfl

end PathUtils

/-- C9 (counterexample): the path round trip fails on terminal roots, on
root arrays, and on keys containing a dot. `getAllPaths` lists `""` as the
terminal path of the empty object, yet `getValueAtPath` on `""` walks one
part (the empty key) and returns the undefined sentinel; the root array
`[1]` yields the path `"[0]"`, whose bracket replacement `".0"` splits
into the parts `["", "0"]` and dies at the empty part; the object with the
single key `"a.b"` yields the path `"a.b"`, which splits into `["a","b"]`
and misses. -/
theorem c9_round_trip_counterexample :
    PathUtils.getAllPaths (Value.obj []) "" [] = [""] ∧
      PathUtils.getValueAtPath (Value.obj []) "" = none ∧
      PathUtils.getAllPaths (Value.arr [Value.num 1]) "" [] = ["[0]"] ∧
      PathUtils.getValueAtPath (Value.arr [Value.num 1]) "[0]" = none ∧
      PathUtils.getAllPaths (Value.obj [("a.b", Value.num 1)]) "" [] = ["a.b"] ∧
      PathUtils.getValueAtPath (Value.obj [("a.b", Value.num 1)]) "a.b" = none := by
  have hrb0 : PathUtils.replaceBrackets ([] : List Char) = [] := by
    rw [PathUtils.replaceBrackets]
  have hp1 : PathUtils.parseParts "" = [""] := by
    rw [PathUtils.parseParts, show ("" : String).data = [] from rfl, hrb0]
    rfl
  have hrb1 : PathUtils.replaceBrackets ("[0]" : String).data = ['.', '0'] := by
    rw [show ("[0]" : String).data = '[' :: (natChars 0 ++ ']' :: []) from rfl,
      PathUtils.replaceBrackets_bracket 0 [], hrb0]
    rfl
  have hp2 : PathUtils.parseParts "[0]" = ["", "0"] := by
    rw [PathUtils.parseParts, hrb1]
    rfl
  have hrb2 : PathUtils.replaceBrackets ("a.b" : String).data = ['a', '.', 'b'] := by
    rw [show ("a.b" : String).data = ['a', '.', 'b'] ++ [] from rfl,
      PathUtils.replaceBrackets_append_no_bracket ['a', '.', 'b'] [] (by decide), hrb0]
    rfl
  have hp3 : PathUtils.parseParts "a.b" = ["a", "b"] := by
    rw [PathUtils.parseParts, hrb2]
    rfl
  refine ⟨rfl, ?_, rfl, ?_, rfl, ?_⟩
  · rw [PathUtils.getValueAtPath, hp1]
    rfl
  · rw [PathUtils.getValueAtPath, hp2]
    rfl
  · rw [PathUtils.getValueAtPath, hp3]
    rfl

/-- C9 (amended): the round trip does hold for nonempty plain objects with
clean keys: when `x` is an object with at least one field and every object
level of `x` has duplicate-free keys that are nonempty and contain no `.`
and no `[`, every path listed by `getAllPaths x "" []` resolves through
`getValueAtPath` to a defined value. -/
theorem c9_path_round_trip_amended (f : List (String × Value)) (hne : f ≠ [])
    (hclean : PathUtils.cleanValue (.obj f) = true) :
    ∀ p ∈ PathUtils.getAllPaths (.obj f) "" [],
      PathUtils.getValueAtPath (.obj f) p ≠ none := by
  intro p hp
  rw [PathUtils.getAllPaths_subSegs, List.nil_append] at hp
  rcases List.mem_map.1 hp with ⟨segs, hsegs, rfl⟩
  cases f with
  | nil => exact absurd rfl hne
  | cons kv fs =>
    rw [PathUtils.subSegs] at hsegs
    obtain ⟨k, v, segs', hmem, rfl, hm⟩ := PathUtils.mem_subSegsFields hsegs
    obtain ⟨hkeys, hwalk⟩ :=
      PathUtils.subSegs_clean_walk (.obj (kv :: fs)) hclean (.key k :: segs')
        (by rw [PathUtils.subSegs]; exact hsegs)
    have hk : PathUtils.cleanKey k = true := hkeys k (List.mem_cons_self _ _)
    have hks : ∀ k0, Seg.key k0 ∈ segs' → PathUtils.cleanKey k0 = true :=
      fun k0 h => hkeys k0 (List.mem_cons_of_mem _ h)
    rw [PathUtils.getValueAtPath, PathUtils.parseParts_render hk hks]
    simpa [PathUtils.segPart] using hwalk

/-! ## C4 analysis: reflexivity -/

mutual

/-- The string leaf values of a tree, in traversal order: exactly the
values the engine can hand to the regex validator during a comparison
rooted at the tree. -/
def subStrings : Value → List String
  | .null => []
  | .bool _ => []
  | .num _ => []
  | .str s => [s]
  | .arr l => subStringsList l
  | .obj f => subStringsFields f

def subStringsList : List Value → List String
  | [] => []
  | x :: xs => subStrings x ++ subStringsList xs

def subStringsFields : List (String × Value) → List String
  | [] => []
  | (_, v) :: fs => subStrings v ++ subStringsFields fs

end

/-- The claim's proviso: every configured pattern passes on every string
leaf value of `v`. -/
def AllPass (opts : OptionsT) (v : Value) : Prop :=
  ∀ s ∈ subStrings v, ∀ q ∈ opts.regexChecks, q.2.test s = true

namespace Comparator

/-- `a` adds no unmatched or regex-failed entry over `b`. -/
def keepsNeg (a b : ResultData) : Prop :=
  a.unmatchedKeys = b.unmatchedKeys ∧ a.unmatchedValues = b.unmatchedValues ∧
    a.unmatchedTypes = b.unmatchedTypes ∧ a.regexFailed = b.regexFailed

theorem keepsNeg_refl (a : ResultData) : keepsNeg a a := ⟨rfl, rfl, rfl, rfl⟩

theorem keepsNeg_trans {a b c : ResultData} (h1 : keepsNeg a b) (h2 : keepsNeg b c) :
    keepsNeg a c :=
  ⟨h1.1.trans h2.1, h1.2.1.trans h2.2.1, h1.2.2.1.trans h2.2.2.1, h1.2.2.2.trans h2.2.2.2⟩

theorem keepsNeg_addMatchedKey (r : ResultData) (p : String) :
    keepsNeg (r.addMatchedKey p) r := ⟨rfl, rfl, rfl, rfl⟩

theorem keepsNeg_addMatchedValue (r : ResultData) (e : MatchedValueEntry) :
    keepsNeg (r.addMatchedValue e) r := ⟨rfl, rfl, rfl, rfl⟩

theorem keepsNeg_addPassed (r : ResultData) (e : PassedRegexEntry) :
    keepsNeg (r.addPassedRegexCheck e) r := ⟨rfl, rfl, rfl, rfl⟩

end Comparator

theorem subStringsList_subset {x : Value} {l : List Value} (hx : x ∈ l) :
    ∀ s ∈ subStrings x, s ∈ subStringsList l := by
  induction l with
  | nil => simp at hx
  | cons y ys ih =>
    intro s hs
    rw [subStringsList, List.mem_append]
    rcases List.mem_cons.1 hx with rfl | hx2
    · exact Or.inl hs
    · exact Or.inr (ih hx2 s hs)

theorem subStringsFields_lookup {f : List (String × Value)} {k : String} {w : Value}
    (h : f.lookup k = some w) : ∀ s ∈ subStrings w, s ∈ subStringsFields f := by
  induction f with
  | nil => simp [List.lookup] at h
  | cons p fs ih =>
    obtain ⟨k1, v1⟩ := p
    intro s hs
    rw [subStringsFields, List.mem_append]
    simp only [List.lookup] at h
    cases hk : k == k1
    · rw [hk] at h
      simp only [] at h
      exact Or.inr (ih h s hs)
    · rw [hk] at h
      simp only [Option.some.injEq] at h
      subst h
      exact Or.inl hs

theorem jsGet_subStrings {v : Value} {k : String} {w : Value}
    (h : jsGet v k = some w) : ∀ s ∈ subStrings w, s ∈ subStrings v := by
  cases v with
  | obj f =>
    simp only [jsGet] at h
    exact subStringsFields_lookup h
  | arr l =>
    simp only [jsGet] at h
    cases hc : canonicalIndex k with
    | none => rw [hc] at h; simp at h
    | some n =>
      rw [hc] at h
      exact subStringsList_subset (List.get?_mem h)
  | null => simp [jsGet] at h
  | bool b => simp [jsGet] at h
  | num n => simp [jsGet] at h
  | str s => simp [jsGet] at h

theorem allPass_jsGet {opts : OptionsT} {v : Value} {k : String} {w : Value}
    (h : jsGet v k = some w) (hap : AllPass opts v) : AllPass opts w :=
  fun s hs => hap s (jsGet_subStrings h s hs)

theorem allPass_elem {opts : OptionsT} {x : Value} {l : List Value}
    (hx : x ∈ l) (hap : AllPass opts (.arr l)) : AllPass opts x :=
  fun s hs => hap s (subStringsList_subset hx s hs)

theorem jsLooseEq_refl_prim (v : Value) (h : jsIsContainer v = false) :
    jsLooseEq v v = true := by
  cases v with
  | null => rfl
  | bool b => cases b <;> rfl
  | num n => simp [jsLooseEq, looseEqPrim, primToNum]
  | str s => simp [jsLooseEq, looseEqPrim]
  | arr l => simp [jsIsContainer] at h
  | obj f => simp [jsIsContainer] at h

theorem checkRegex_pass {s : String} {regex : Matcher} (h : regex.test s = true)
    (path : String) (r : ResultData) :
    RegexValidator.checkRegex s path regex r =
      r.addPassedRegexCheck { path := path, value := s, pattern := regex.srcStr } := by
  rw [RegexValidator.checkRegex, if_pos h]

theorem validateValueLoop_keeps (opts : OptionsT) (s path : String) :
    ∀ checks : List (String × Matcher), (∀ q ∈ checks, q.2.test s = true) →
      ∀ r, Comparator.keepsNeg (RegexValidator.validateValueLoop opts s path checks r) r := by
  intro checks
  induction checks with
  | nil => intro _ r; exact Comparator.keepsNeg_refl r
  | cons q rest ih =>
    intro h r
    obtain ⟨keyPath, regex⟩ := q
    simp only [RegexValidator.validateValueLoop]
    refine Comparator.keepsNeg_trans (ih (fun q hq => h q (List.mem_cons_of_mem _ hq)) _) ?_
    by_cases hsc : (keyPath == path ||
        (opts.matchKeysByName && PathUtils.getKeyNameFromPath path == keyPath)) = true
    · rw [if_pos hsc, checkRegex_pass (h (keyPath, regex) (List.mem_cons_self _ _))]
      exact Comparator.keepsNeg_addPassed r _
    · rw [if_neg hsc]
      exact Comparator.keepsNeg_refl r

theorem validateValue_keeps (opts : OptionsT) (v : Value) (path : String) (r : ResultData)
    (hp : ∀ s ∈ subStrings v, ∀ q ∈ opts.regexChecks, q.2.test s = true) :
    Comparator.keepsNeg (RegexValidator.validateValue opts v path r) r := by
  cases v with
  | str s =>
    exact validateValueLoop_keeps opts s path opts.regexChecks
      (fun q hq => hp s (by simp [subStrings]) q hq) r
  | null => exact Comparator.keepsNeg_refl r
  | bool b => exact Comparator.keepsNeg_refl r
  | num n => exact Comparator.keepsNeg_refl r
  | arr l => exact Comparator.keepsNeg_refl r
  | obj f => exact Comparator.keepsNeg_refl r

namespace Comparator

theorem compareValues_keeps (opts : OptionsT) (v : Value) (path : String) (r : ResultData)
    (hnc : jsIsContainer v = false)
    (hp : ∀ s ∈ subStrings v, ∀ q ∈ opts.regexChecks, q.2.test s = true) :
    keepsNeg (compareValues opts v v path r) r := by
  simp only [compareValues]
  cases he : equivFind opts.equivalentValues v v with
  | some key =>
    exact keepsNeg_addMatchedValue r _
  | none =>
    have hvm : (if opts.strictTypes = true then beqValue v v else jsLooseEq v v) = true := by
      cases hst : opts.strictTypes
      · simp [jsLooseEq_refl_prim v hnc]
      · simp [beqValue_refl]
    simp only [ne_eq, eq_self_iff_true, not_true, false_and, if_false, hvm, if_true]
    exact keepsNeg_trans
      (validateValue_keeps opts v path (r.addMatchedValue _) hp)
      (keepsNeg_addMatchedValue r _)

end Comparator

namespace Comparator

theorem strategyLookup_mem {l : List (String × Strategy)} {k : String} {st : Strategy}
    (h : l.lookup k = some st) : ∃ k', (k', st) ∈ l := by
  induction l with
  | nil => simp [List.lookup] at h
  | cons p fs ih =>
    obtain ⟨k1, s1⟩ := p
    simp only [List.lookup] at h
    cases hk : k == k1
    · rw [hk] at h
      simp only [] at h
      obtain ⟨k', hk'⟩ := ih h
      exact ⟨k', List.mem_cons_of_mem _ hk'⟩
    · rw [hk] at h
      simp only [Option.some.injEq] at h
      subst h
      exact ⟨k1, List.mem_cons_self _ _⟩

theorem compareArraysAsSet_keeps (arr : List Value) (path : String) (r : ResultData) :
    keepsNeg (compareArraysAsSet arr arr path r) r := by
  rw [compareArraysAsSet_success arr arr path r rfl (List.Perm.refl _)]
  exact keepsNeg_addMatchedValue r _

theorem exactExtras_self (arr : List Value) (path : String) (r : ResultData) :
    exactExtras arr arr path r = r := by
  simp only [exactExtras]
  rw [Nat.min_self, List.drop_length]
  rfl

theorem exactPairLoop_keeps (opts : OptionsT) {B : Nat}
    (IH : ∀ w : Value, sizeOf w < B → AllPass opts w →
      ∀ path r, keepsNeg (compareObjects opts w w path r) r) :
    ∀ l : List Value, (∀ x ∈ l, sizeOf x < B) → (∀ x ∈ l, AllPass opts x) →
      ∀ i path r, keepsNeg (exactPairLoop opts l l i path r) r := by
  intro l
  induction l with
  | nil =>
    intro _ _ i path r
    simp only [exactPairLoop]
    exact keepsNeg_refl r
  | cons x xs ih =>
    intro hb hap i path r
    simp only [exactPairLoop]
    refine keepsNeg_trans
      (ih (fun y hy => hb y (List.mem_cons_of_mem _ hy))
        (fun y hy => hap y (List.mem_cons_of_mem _ hy)) (i + 1) path _) ?_
    by_cases hcx : (jsIsContainer x && jsIsContainer x) = true
    · rw [if_pos hcx]
      exact IH x (hb x (List.mem_cons_self _ _)) (hap x (List.mem_cons_self _ _)) _ r
    · rw [if_neg hcx]
      have hnc : jsIsContainer x = false := by
        cases hh : jsIsContainer x
        · rfl
        · exact absurd (by simp [hh]) hcx
      exact compareValues_keeps opts x _ r hnc (hap x (List.mem_cons_self _ _))

theorem compareArraysExact_keeps (opts : OptionsT) {B : Nat}
    (IH : ∀ w : Value, sizeOf w < B → AllPass opts w →
      ∀ path r, keepsNeg (compareObjects opts w w path r) r)
    (l : List Value) (hb : ∀ x ∈ l, sizeOf x < B) (hap : ∀ x ∈ l, AllPass opts x)
    (path : String) (r : ResultData) :
    keepsNeg (compareArraysExact opts l l path r) r := by
  simp only [compareArraysExact]
  rw [if_neg (by simp)]
  rw [exactExtras_self]
  exact exactPairLoop_keeps opts IH l hb hap 0 path r

theorem compareArrays_keeps (opts : OptionsT)
    (hstrat : ∀ q ∈ opts.arrayComparisonStrategies, q.2.type ≠ some "key") {B : Nat}
    (IH : ∀ w : Value, sizeOf w < B → AllPass opts w →
      ∀ path r, keepsNeg (compareObjects opts w w path r) r)
    (l : List Value) (hb : ∀ x ∈ l, sizeOf x < B) (hap : ∀ x ∈ l, AllPass opts x)
    (path : String) (r : ResultData) :
    keepsNeg (compareArrays opts l l path r) r := by
  simp only [compareArrays]
  have hkey : ((((opts.arrayComparisonStrategies.lookup path).getD
      { type := some "exact" }).type == some "key") = false) := by
    cases hl : opts.arrayComparisonStrategies.lookup path with
    | none => rfl
    | some s =>
      obtain ⟨k', hk'⟩ := strategyLookup_mem hl
      have hne := hstrat (k', s) hk'
      simp only [Option.getD_some]
      cases hts : s.type with
      | none => rfl
      | some t =>
        rw [hts] at hne
        have : t ≠ "key" := fun hh => hne (by rw [hh])
        simp [this]
  by_cases hset : ((((opts.arrayComparisonStrategies.lookup path).getD
      { type := some "exact" }).type == some "set") = true)
  · rw [if_pos hset]
    exact compareArraysAsSet_keeps l path r
  · rw [if_neg hset, if_neg (by simp [hkey])]
    exact compareArraysExact_keeps opts IH l hb hap path r

end Comparator

namespace Comparator

theorem lookup_isSome_of_mem_keys {f : List (String × Value)} {k : String}
    (h : k ∈ f.map Prod.fst) : (f.lookup k).isSome = true := by
  induction f with
  | nil => simp at h
  | cons p fs ih =>
    obtain ⟨k1, v1⟩ := p
    simp only [List.map_cons, List.mem_cons] at h
    simp only [List.lookup]
    cases hk : k == k1
    · simp only []
      rcases h with rfl | h2
      · simp at hk
      · exact ih h2
    · simp

theorem extraKeysLoop_self (opts : OptionsT) (o : Value) :
    ∀ keys : List String, (∀ k ∈ keys, jsHas o k = true) →
      ∀ path r, extraKeysLoop opts o o keys path r = r := by
  intro keys
  induction keys with
  | nil => intro _ path r; rfl
  | cons key rest ih =>
    intro h path r
    simp only [extraKeysLoop]
    have hc : (!(opts.ignoredKeys.contains key) && !(jsHas o key)) = false := by
      rw [h key (List.mem_cons_self _ _)]
      simp
    rw [hc]
    simp only [Bool.false_eq_true, if_false]
    exact ih (fun k hk => h k (List.mem_cons_of_mem _ hk)) path r

theorem compareKeysLoop_keeps (opts : OptionsT) {f : List (String × Value)} {B : Nat}
    (IH : ∀ w : Value, sizeOf w < B → AllPass opts w →
      ∀ path r, keepsNeg (compareObjects opts w w path r) r)
    (hsz : ∀ (k : String) (w : Value), jsGet (Value.obj f) k = some w → sizeOf w < B)
    (hap : AllPass opts (Value.obj f)) :
    ∀ keys : List String, (∀ k ∈ keys, (jsGet (Value.obj f) k).isSome = true) →
      ∀ path r, keepsNeg (compareKeysLoop opts (Value.obj f) (Value.obj f) keys path r) r := by
  intro keys
  induction keys with
  | nil =>
    intro _ path r
    simp only [compareKeysLoop]
    exact keepsNeg_refl r
  | cons key rest ih =>
    intro h path r
    simp only [compareKeysLoop]
    have h2 : (jsGet (Value.obj f) key).isSome = true := h key (List.mem_cons_self _ _)
    rw [dif_pos h2, dif_pos h2]
    refine keepsNeg_trans (ih (fun k hk => h k (List.mem_cons_of_mem _ hk)) path _) ?_
    have hw : jsGet (Value.obj f) key = some ((jsGet (Value.obj f) key).get h2) :=
      (Option.some_get h2).symm
    have hapw : AllPass opts ((jsGet (Value.obj f) key).get h2) := allPass_jsGet hw hap
    by_cases hcw : (jsIsContainer ((jsGet (Value.obj f) key).get h2) &&
        jsIsContainer ((jsGet (Value.obj f) key).get h2)) = true
    · rw [if_pos hcw]
      exact keepsNeg_trans (IH _ (hsz key _ hw) hapw _ _) (keepsNeg_addMatchedKey r _)
    · rw [if_neg hcw]
      have hnc : jsIsContainer ((jsGet (Value.obj f) key).get h2) = false := by
        cases hh : jsIsContainer ((jsGet (Value.obj f) key).get h2)
        · rfl
        · exact absurd (by simp [hh]) hcw
      exact keepsNeg_trans (compareValues_keeps opts _ _ _ hnc hapw)
        (keepsNeg_addMatchedKey r _)

theorem compareObjects_refl_keeps (opts : OptionsT)
    (hstrat : ∀ q ∈ opts.arrayComparisonStrategies, q.2.type ≠ some "key") :
    ∀ (n : Nat) (v : Value), sizeOf v ≤ n → AllPass opts v →
      ∀ path r, keepsNeg (compareObjects opts v v path r) r := by
  intro n
  induction n with
  | zero =>
    intro v hv
    exfalso
    cases v <;> simp_all
  | succ n ihn =>
    intro v hv hap path r
    have IH : ∀ w : Value, sizeOf w < sizeOf v → AllPass opts w →
        ∀ path r, keepsNeg (compareObjects opts w w path r) r :=
      fun w hw hapw => ihn w (by omega) hapw
    cases v with
    | null =>
      simpa [compareObjects] using compareValues_keeps opts .null path r rfl hap
    | bool b =>
      simpa [compareObjects, Value.isArray, jsIsContainer] using
        compareValues_keeps opts (.bool b) path r rfl hap
    | num m =>
      simpa [compareObjects, Value.isArray, jsIsContainer] using
        compareValues_keeps opts (.num m) path r rfl hap
    | str s =>
      simpa [compareObjects, Value.isArray, jsIsContainer] using
        compareValues_keeps opts (.str s) path r rfl hap
    | arr l =>
      have hgoal := compareArrays_keeps opts hstrat (B := sizeOf (Value.arr l)) IH l
        (fun x hx => by
          have := List.sizeOf_lt_of_mem hx
          simp only [Value.arr.sizeOf_spec]
          omega)
        (fun x hx => allPass_elem hx hap) path r
      simpa [compareObjects, Value.isArray, Value.arrElems, jsIsContainer] using hgoal
    | obj f =>
      simp only [compareObjects]
      have hkl := compareKeysLoop_keeps opts (f := f) (B := sizeOf (Value.obj f)) IH
        (fun k w hw => jsGet_sizeOf hw) hap
        ((jsOwnKeys (Value.obj f)).filter (fun k => !(opts.ignoredKeys.contains k)))
        (fun k hk => lookup_isSome_of_mem_keys (List.mem_of_mem_filter hk))
        path r
      simp only [reduceCtorEq, or_self, if_false, Value.isArray, Bool.and_self,
        Bool.false_eq_true, dite_false, jsIsContainer, not_true, if_false]
      cases hie : opts.ignoreExtraKeys with
      | true =>
        rw [if_pos rfl]
        exact hkl
      | false =>
        simp only [Bool.false_eq_true, if_false]
        rw [extraKeysLoop_self opts (Value.obj f) (jsOwnKeys (Value.obj f))
          (fun k hk => lookup_isSome_of_mem_keys hk) path _]
        exact hkl

end Comparator

theorem c9_witness :
    ([(("a" : String), Value.num 1)] ≠ []) ∧
      PathUtils.cleanValue (Value.obj [("a", Value.num 1)]) = true ∧
      "a" ∈ PathUtils.getAllPaths (Value.obj [("a", Value.num 1)]) "" [] ∧
      PathUtils.getValueAtPath (Value.obj [("a", Value.num 1)]) "a" ≠ none :=
  ⟨by simp, rfl, by decide,
    c9_path_round_trip_amended [("a", Value.num 1)] (by simp) rfl "a" (by decide)⟩

/-- C4 (counterexample): reflexivity fails under a `key` array strategy
with unkeyable elements even though no configured pattern exists (the
proviso about patterns holds vacuously): comparing `{a:[1]}` with itself
under the strategy `{a: {type: "key", keyName: "id"}}` records the two
unkeyable-element entries and yields 100/3 percent, not 100. -/
theorem c4_reflexivity_counterexample :
    (JSONCompare.compare
        { defaultOptions with
            arrayComparisonStrategies :=
              [("a", { type := some "key", keyName := some (.str "id") })] }
        (.obj [("a", .arr [.num 1])]) (.obj [("a", .arr [.num 1])])).summary.matchPercentage
        ≠ 100 ∧
    (JSONCompare.compare
        { defaultOptions with
            arrayComparisonStrategies :=
              [("a", { type := some "key", keyName := some (.str "id") })] }
        (.obj [("a", .arr [.num 1])]) (.obj [("a", .arr [.num 1])])).unmatchedValues ≠ [] := by
  have h : (JSONCompare.compare
      { defaultOptions with
          arrayComparisonStrategies :=
            [("a", { type := some "key", keyName := some (.str "id") })] }
      (.obj [("a", .arr [.num 1])]) (.obj [("a", .arr [.num 1])])).summary.matchPercentage
      = 100 / 3 := by
    simp [JSONCompare.compare, JSONCompare.freshResult, ResultData.reset,
      Comparator.compareObjects, Comparator.compareKeysLoop, Comparator.extraKeysLoop,
      Comparator.compareValues, Comparator.equivFind, Comparator.getValueType,
      Comparator.compareArrays, Comparator.compareArraysByKey, Comparator.keyNameInvalid,
      Comparator.keyNameString, Comparator.buildKeyScan, Comparator.keyScanLoop,
      Comparator.kmapHas, Comparator.kmapSet, Comparator.kmapGet, Comparator.setAdd,
      Comparator.unkeyableReport1, Comparator.unkeyableReport2, Comparator.dupReport1,
      Comparator.dupReport2, Comparator.keyedLoop,
      RegexValidator.validateValue, RegexValidator.validateValueLoop,
      jsGet, jsHas, jsOwnKeys, jsIsContainer, Value.isArray, Value.arrElems,
      PathUtils.buildPath, PathUtils.buildArrayPath, natStr, natChars, natCharsAux,
      ResultData.addMatchedKey, ResultData.addMatchedValue,
      ResultData.addUnmatchedKey, ResultData.addUnmatchedValue, ResultData.addUnmatchedType,
      ResultData.updateSummary, defaultOptions, beqValue, List.lookup]
    norm_num
  refine ⟨by rw [h]; norm_num, ?_⟩
  intro hc
  have h2 : (JSONCompare.compare
      { defaultOptions with
          arrayComparisonStrategies :=
            [("a", { type := some "key", keyName := some (.str "id") })] }
      (.obj [("a", .arr [.num 1])]) (.obj [("a", .arr [.num 1])])).unmatchedValues.length
      = 2 := by
    simp [JSONCompare.compare, JSONCompare.freshResult, ResultData.reset,
      Comparator.compareObjects, Comparator.compareKeysLoop, Comparator.extraKeysLoop,
      Comparator.compareValues, Comparator.equivFind, Comparator.getValueType,
      Comparator.compareArrays, Comparator.compareArraysByKey, Comparator.keyNameInvalid,
      Comparator.keyNameString, Comparator.buildKeyScan, Comparator.keyScanLoop,
      Comparator.kmapHas, Comparator.kmapSet, Comparator.kmapGet, Comparator.setAdd,
      Comparator.unkeyableReport1, Comparator.unkeyableReport2, Comparator.dupReport1,
      Comparator.dupReport2, Comparator.keyedLoop,
      RegexValidator.validateValue, RegexValidator.validateValueLoop,
      jsGet, jsHas, jsOwnKeys, jsIsContainer, Value.isArray, Value.arrElems,
      PathUtils.buildPath, PathUtils.buildArrayPath, natStr, natChars, natCharsAux,
      ResultData.addMatchedKey, ResultData.addMatchedValue,
      ResultData.addUnmatchedKey, ResultData.addUnmatchedValue, ResultData.addUnmatchedType,
      ResultData.updateSummary, defaultOptions, beqValue, List.lookup]
  rw [hc] at h2
  simp at h2

/-- C4 (amended): reflexivity holds for every tree and options whose array
strategies contain no `key`-type entry and whose configured patterns all
pass on the tree's own string leaf values: `compare(x, x)` then has empty
`unmatched.keys`, `unmatched.values`, `unmatched.types` and
`regexChecks.failed`, and `matchPercentage = 100`. -/
theorem c4_reflexivity_amended (opts : OptionsT) (x : Value)
    (hstrat : ∀ q ∈ opts.arrayComparisonStrategies, q.2.type ≠ some "key")
    (hpass : ∀ s ∈ subStrings x, ∀ q ∈ opts.regexChecks, q.2.test s = true) :
    (JSONCompare.compare opts x x).unmatchedKeys = [] ∧
      (JSONCompare.compare opts x x).unmatchedValues = [] ∧
      (JSONCompare.compare opts x x).unmatchedTypes = [] ∧
      (JSONCompare.compare opts x x).regexFailed = [] ∧
      (JSONCompare.compare opts x x).summary.matchPercentage = 100 := by
  obtain ⟨h1, h2, h3, h4⟩ :=
    Comparator.compareObjects_refl_keeps opts hstrat (sizeOf x) x le_rfl hpass ""
      JSONCompare.freshResult
  have hk : (Comparator.compareObjects opts x x "" JSONCompare.freshResult).unmatchedKeys
      = [] := h1.trans rfl
  have hv : (Comparator.compareObjects opts x x "" JSONCompare.freshResult).unmatchedValues
      = [] := h2.trans rfl
  have ht : (Comparator.compareObjects opts x x "" JSONCompare.freshResult).unmatchedTypes
      = [] := h3.trans rfl
  have hf : (Comparator.compareObjects opts x x "" JSONCompare.freshResult).regexFailed
      = [] := h4.trans rfl
  refine ⟨hk, hv, ht, hf, ?_⟩
  show ((Comparator.compareObjects opts x x "" JSONCompare.freshResult).updateSummary).summary.matchPercentage = 100
  simp only [ResultData.updateSummary, hk, hv, ht, List.length_nil, ite_self,
    Nat.add_zero, Nat.zero_add]
  by_cases hm : (Comparator.compareObjects opts x x "" JSONCompare.freshResult).matchedKeys.length = 0
  · simp [hm]
  · rw [if_pos (by omega)]
    have hne : ((Comparator.compareObjects opts x x ""
        JSONCompare.freshResult).matchedKeys.length : ℚ) ≠ 0 := by
      exact_mod_cast hm
    field_simp

theorem c4_witness :
    (∀ q ∈ defaultOptions.arrayComparisonStrategies, q.2.type ≠ some "key") ∧
      (∀ s ∈ subStrings (Value.obj [("a", Value.num 1)]),
        ∀ q ∈ defaultOptions.regexChecks, q.2.test s = true) ∧
      (JSONCompare.compare defaultOptions (Value.obj [("a", Value.num 1)])
        (Value.obj [("a", Value.num 1)])).summary.matchPercentage = 100 :=
  ⟨by simp [defaultOptions], by simp [defaultOptions],
    (c4_reflexivity_amended defaultOptions (Value.obj [("a", Value.num 1)])
      (by simp [defaultOptions]) (by simp [defaultOptions])).2.2.2.2⟩

end JDC
